import Mathlib

/-!
Shallow embedding of the resolver binding core of `DunStack/graphql-go`
(`internal/exec/resolvable/resolvable.go` and `scalar/id.go`), together with
theorems checking the natural-language specification against it.

Go's reflection universe is embedded nominally: a resolver type is either one
of the predeclared primitive types, a named type (whose structure is looked up
in a type environment, mirroring Go's nominal type identity used as map keys by
`reflect.Type`), or a pointer/slice/channel composite.  Schema types are
likewise name references plus the `List`/`NonNull` wrappers; `typePair` map
keys compare by this identity, matching the pointer identity of the unique
parsed schema nodes.  Machinery external to the two source files (the packer
subsystem, the `decode.Unmarshaler` and directive-visitor interfaces, the
parsed schema representation) is modelled from the spec's description of those
boundaries.
-/

namespace GraphQLGo

/-- Kinds of host (reflection-level) types, the subset `resolvable.go`
inspects via `reflect.Type.Kind`. -/
inductive Kind where
  | ptr
  | interface
  | struct
  | slice
  | chan
  | other
deriving DecidableEq

/-- A host type, identified nominally: primitives are themselves, defined
(named) types are identified by name and described by a `RTypeDef` in an
environment, and pointer/slice/channel types are structural wrappers.  This
mirrors `reflect.Type` identity, which `resolvable.go` uses for map keys and
for the exact-type switch in `makeScalarExec`. -/
inductive RType where
  | int32T
  | float64T
  | stringT
  | boolT
  | named (n : String)
  | ptr (t : RType)
  | slice (t : RType)
  | chan (t : RType)
deriving DecidableEq

/-- A callable member (method).  `inTypes` lists the declared parameters
without the receiver; Go's `reflect` includes the receiver in `Type.In` for
methods of non-interface types, which the embedding accounts for via
`methodNumIn`. -/
structure RMethod where
  name : String
  inTypes : List RType
  outTypes : List RType

/-- A data member (struct field) of a host struct type. -/
structure RField where
  name : String
  type : RType
  anonymous : Bool
deriving DecidableEq

/-- Modelled from the spec: definition of a named host type.  `methods` is the
method set of the value type (for interface kinds, the interface's method
set); `ptrMethods` is the method set of the pointer type.  `scalarImpl`
records whether a pointer to this type satisfies the external
`decode.Unmarshaler` capability, and if so the behavior of its
`ImplementsGraphQLType` answer. -/
structure RTypeDef where
  kind : Kind
  fields : List RField := []
  methods : List RMethod := []
  ptrMethods : List RMethod := []
  scalarImpl : Option (String → Bool) := none

/-- Host type environment: name → definition. -/
def REnv := List (String × RTypeDef)

def REnv.lookup (Γ : REnv) (n : String) : Option RTypeDef :=
  (List.find? (fun p => p.1 == n) Γ).map Prod.snd

/-- `reflect.Type.Kind` for the embedded types. -/
def kindOf (Γ : REnv) : RType → Kind
  | .int32T | .float64T | .stringT | .boolT => .other
  | .named n =>
    match Γ.lookup n with
    | some d => d.kind
    | none => .other
  | .ptr _ => .ptr
  | .slice _ => .slice
  | .chan _ => .chan

/-- `reflect.Type.Elem` for pointer/slice/channel types. -/
def elemOf : RType → Option RType
  | .ptr t => some t
  | .slice t => some t
  | .chan t => some t
  | _ => none

/-- Struct fields of a host type (empty when not a defined struct type). -/
def structFields (Γ : REnv) : RType → List RField
  | .named n =>
    match Γ.lookup n with
    | some d => d.fields
    | none => []
  | _ => []

/-- The method set reachable through `reflect.Type.Method`: a named type's
value method set, a pointer-to-named type's pointer method set, an
interface type's method set; other types expose no methods. -/
def methodSet (Γ : REnv) : RType → List RMethod
  | .named n =>
    match Γ.lookup n with
    | some d => d.methods
    | none => []
  | .ptr (.named n) =>
    match Γ.lookup n with
    | some d => d.ptrMethods
    | none => []
  | _ => []

/-- `reflect.Method.Type.NumIn`: declared parameters, plus the receiver when
the method belongs to a non-interface type. -/
def methodNumIn (m : RMethod) (methodHasReceiver : Bool) : Nat :=
  m.inTypes.length + (if methodHasReceiver then 1 else 0)

/-- Modelled from the spec: whether a pointer to the host type satisfies the
`decode.Unmarshaler` capability, and its `ImplementsGraphQLType` behavior. -/
def scalarImplOf (Γ : REnv) : RType → Option (String → Bool)
  | .named n =>
    match Γ.lookup n with
    | some d => d.scalarImpl
    | none => none
  | _ => none

/-- A GraphQL schema type reference: a named type (object, interface, union,
scalar or enum — resolved through the schema environment) or a `List`/
`NonNull` wrapper.  Identity of these values models the pointer identity of
the parsed `types.Type` nodes used as memoization keys. -/
inductive SType where
  | namedRef (n : String)
  | list (ofType : SType)
  | nonNull (ofType : SType)
deriving DecidableEq

/-- A schema field definition: name, argument definitions (opaque argument
names suffice for the binder, which only checks emptiness and hands them to
the packer), result type, and attached directive names. -/
structure FieldDef where
  name : String
  args : List String := []
  type : SType
  directives : List String := []

/-- Definition of a named schema type. -/
inductive STypeDef where
  | object (fields : List FieldDef)
  | interfaceT (fields : List FieldDef) (possibleTypes : List String)
  | union (members : List String)
  | scalar
  | enum

/-- A schema directive definition: declared locations and argument
definitions. -/
structure DirectiveDef where
  locations : List String := []
  args : List String := []
deriving DecidableEq

/-- Modelled from the spec: the parsed, validated schema consumed read-only
by the binder — named type definitions, directive definitions, and the map
from root operation name to root type name. -/
structure GSchema where
  types : List (String × STypeDef) := []
  directives : List (String × DirectiveDef) := []
  rootOperationTypes : List (String × String) := []

def GSchema.lookupType (s : GSchema) (n : String) : Option STypeDef :=
  (List.find? (fun p => p.1 == n) s.types).map Prod.snd

def GSchema.lookupDirective (s : GSchema) (n : String) : Option DirectiveDef :=
  (List.find? (fun p => p.1 == n) s.directives).map Prod.snd

def GSchema.lookupRoot (s : GSchema) (op : String) : Option String :=
  (List.find? (fun p => p.1 == op) s.rootOperationTypes).map Prod.snd

/-- Modelled from the spec: a supplied directive implementation — the name it
declares via `ImplementsDirective`, whether it implements the
`directives.ResolverInterceptor` capability, and its own host type (used as
the packer target for directive arguments). -/
structure DirVisitor where
  name : String
  isResolverInterceptor : Bool
  rtype : RType
deriving DecidableEq

end GraphQLGo

namespace GraphQLGo

/-- `stripUnderscore`: remove every underscore (source: `strings.Replace(s, "_", "", -1)`),
implemented over the character list so that it evaluates inside the kernel. -/
def stripUnderscore (s : String) : String :=
  String.mk (s.data.filter (fun c => c != '_'))

/-- `strings.ToLower`, restricted to the ASCII folding the binder's names
use, implemented over the character list. -/
def toLowerStr (s : String) : String :=
  String.mk (s.data.map Char.toLower)

/-- `strings.EqualFold`, restricted to ASCII folding. -/
def eqFold (a b : String) : Bool :=
  toLowerStr a == toLowerStr b

/-- `findMethod`: index of the first method whose underscore-stripped name
matches case-insensitively, `-1` if none. -/
def findMethod (Γ : REnv) (t : RType) (name : String) : Int :=
  match (methodSet Γ t).findIdx? (fun m => eqFold (stripUnderscore name) (stripUnderscore m.name)) with
  | some i => (i : Int)
  | none => -1

/-- `reflect.Type.Method i` for the embedded method sets. -/
def methodAt (Γ : REnv) (t : RType) (i : Nat) : Option RMethod :=
  (methodSet Γ t).get? i

/-- One `count[fieldName]++` step of `fieldCount` (maps absent keys to 0). -/
def bumpCount (count : List (String × Nat)) (k : String) : List (String × Nat) :=
  match count.find? (fun p => p.1 == k) with
  | some _ => count.map (fun p => if p.1 == k then (p.1, p.2 + 1) else p)
  | none => count ++ [(k, 1)]

def getCount (count : List (String × Nat)) (k : String) : Nat :=
  match count.find? (fun p => p.1 == k) with
  | some p => p.2
  | none => 0

/-- `fieldCount`, fuel-indexed: counts data members per normalized
(lower-cased, underscore-stripped) name, recursing through anonymous
struct members.  Fuel only bounds the nominal-type recursion depth; Go
forbids by-value struct cycles, so any fuel exceeding the number of named
types is enough. -/
def fieldCountF (Γ : REnv) : Nat → RType → List (String × Nat) → List (String × Nat)
  | 0, _, count => count
  | fuel + 1, t, count =>
    if kindOf Γ t != Kind.struct then
      []
    else
      (structFields Γ t).foldl
        (fun count field =>
          let fieldName := toLowerStr (stripUnderscore field.name)
          if kindOf Γ field.type == Kind.struct && field.anonymous then
            fieldCountF Γ fuel field.type count
          else
            bumpCount count fieldName)
        count

/-- `fieldCount` at the canonical sufficient fuel. -/
def fieldCount (Γ : REnv) (t : RType) (count : List (String × Nat)) : List (String × Nat) :=
  fieldCountF Γ (Γ.length + 1) t count

/-- `findField`, fuel-indexed over a field list: scan fields left to right;
for an anonymous struct member first try to extend the path into its fields;
otherwise match the field's own name; the accumulated `index` is returned
when nothing matches.  One unit of fuel is consumed per scanned field and
per descent, so any fuel exceeding the total number of fields reachable
through the (acyclic, as Go guarantees for by-value embedding) environment
is enough. -/
def findFieldGo (Γ : REnv) : Nat → List RField → String → List Nat → Nat → List Nat
  | 0, _, _, index, _ => index
  | _ + 1, [], _, index, _ => index
  | fuel + 1, field :: rest, name, index, i =>
    let viaEmbedded :=
      if kindOf Γ field.type == Kind.struct && field.anonymous then
        let newIndex := findFieldGo Γ fuel (structFields Γ field.type) name [i] 0
        if newIndex.length > 1 then some (index ++ newIndex) else none
      else none
    match viaEmbedded with
    | some r => r
    | none =>
      if eqFold (stripUnderscore name) (stripUnderscore field.name) then
        index ++ [i]
      else
        findFieldGo Γ fuel rest name index (i + 1)
termination_by structural fuel => fuel

/-- A fuel value exceeding every field chain the environment can produce. -/
def envFieldFuel (Γ : REnv) : Nat :=
  (Γ.foldl (fun acc p => acc + p.2.fields.length) 0 + 1) * (Γ.length + 1)

/-- `findField` at the canonical sufficient fuel. -/
def findField (Γ : REnv) (t : RType) (name : String) (index : List Nat) : List Nat :=
  findFieldGo Γ (envFieldFuel Γ) (structFields Γ t) name index 0

/-- `reflect.Type.FieldByIndex` restricted to the struct-only paths that
`findField` produces. -/
def fieldByIndex (Γ : REnv) : RType → List Nat → Option RField
  | _, [] => none
  | t, [i] => (structFields Γ t).get? i
  | t, i :: rest =>
    match (structFields Γ t).get? i with
    | some f => fieldByIndex Γ f.type rest
    | none => none

/-- `unwrapNonNull`: strip a single leading `NonNull` wrapper. -/
def unwrapNonNull : SType → SType × Bool
  | .nonNull t => (t, true)
  | t => (t, false)

/-- `unwrapPtr`: strip a single pointer layer. -/
def unwrapPtr : RType → RType
  | .ptr t => t
  | t => t

end GraphQLGo

namespace GraphQLGo

/-- Binding errors, one constructor per `fmt.Errorf`/`panic` site of
`resolvable.go` (fields carry the data the message formats), plus the
fuel-exhaustion artifact of the embedding. -/
inductive Err where
  | rootMethodArgs (op : String) (rt : RType) (numIn : Nat)
  | rootMethodReturns (op : String) (rt : RType) (numOut : Nat)
  | rootMethodReturnKind (op : String) (rt : RType) (out : RType)
  | rootMethodNilResult (op : String) (rt : RType)
  | multipleDirectiveImpls (name : String)
  | invalidDirectiveVisitor (name : String)
  | noVisitorForDirective (name : String)
  | notAPointer (rt : RType)
  | cannotUseAs (rt : RType) (scalarName : String)
  | notASlice (rt : RType)
  | notPtrOrInterface (rt : RType)
  | ambiguousField (rt : RType) (typeName : String) (fieldName : String)
  | missingFieldMethod (rt : RType) (typeName : String) (fieldName : String) (hintPointer : Bool)
  | usedBy (inner : Err) (rt : RType) (resolverName : String)
  | missingToMethod (rt : RType) (typeName : String) (methodName : String) (implName : String)
  | toMethodArgs (rt : RType) (typeName : String) (methodName : String)
  | toMethodReturns (rt : RType) (typeName : String) (methodName : String)
  | missingArgsStruct
  | tooManyArgs
  | tooFewReturnValues
  | tooManyReturnValues
  | lastReturnMustBeError
  | directiveOnFieldNoVisitor (directive : String) (field : String)
  | directiveDefMissing (directive : String)
  | goPanic (msg : String)
  | outOfFuel

/-- Modelled from the spec: the opaque packer the external Packer Builder
produces; the model records the argument definitions and target shape it was
built from.  The claims here do not depend on packer-internal failures, so the
modelled builder always succeeds. -/
structure StructPacker where
  args : List String
  target : RType

def makeStructPacker (args : List String) (target : RType) : Except Err StructPacker :=
  .ok ⟨args, target⟩

/-- Modelled from the spec: the packer subsystem's deferred finalization. -/
def packerFinish : Except Err Unit := .ok ()

/-- `context.Context`, an interface type compared by identity. -/
def contextType : RType := .named "context.Context"

/-- The `error` interface type, compared by identity. -/
def errorType : RType := .named "error"

/-- The `Field` descriptor.  `valueExec` holds an arena slot id that
`finish` patches to a node id (the arena/patch-list translation of the
source's `*Resolvable` target pointers). -/
structure Field where
  fieldDef : FieldDef
  typeName : String
  methodIndex : Int
  fieldIndex : List Nat
  hasContext : Bool
  hasError : Bool
  argsPacker : Option StructPacker
  directivesPackers : List (String × StructPacker)
  valueExec : Nat
  traceLabel : String

def Field.UseMethodResolver (f : Field) : Bool :=
  f.fieldIndex.length == 0

structure TypeAssertion where
  methodIndex : Int
  typeExec : Nat

/-- The Dispatch Tree node (`Resolvable` with variants `Object`, `List`,
`Scalar`).  Child links are slot ids resolved by `finish`. -/
inductive Resolvable where
  | object (name : String) (fields : List (String × Field)) (typeAssertions : List (String × TypeAssertion))
  | list (elem : Nat)
  | scalar

/-- The memo-map key: the exact (schema type, resolver type) pair. -/
abbrev TypePair := SType × RType

structure ResMapEntry where
  exec : Option Nat := none
  targets : List Nat := []

/-- Builder state: the memoization map, the node arena (node ids are array
indices; Go's heap pointers become indices, so "reference identity" is index
equality), and the slot allocator for pending targets. -/
structure BState where
  resMap : List (TypePair × ResMapEntry) := []
  nodes : Array Resolvable := #[]
  nextSlot : Nat := 0

def BState.lookupPair (st : BState) (k : TypePair) : Option ResMapEntry :=
  (st.resMap.find? (fun p => p.1 == k)).map Prod.snd

def BState.insertPair (st : BState) (k : TypePair) : BState :=
  { st with resMap := st.resMap ++ [(k, {})] }

def BState.setExec (st : BState) (k : TypePair) (nid : Nat) : BState :=
  { st with resMap := st.resMap.map (fun p => if p.1 == k then (p.1, { p.2 with exec := some nid }) else p) }

def BState.addTarget (st : BState) (k : TypePair) (slot : Nat) : BState :=
  { st with resMap := st.resMap.map (fun p => if p.1 == k then (p.1, { p.2 with targets := p.2.targets ++ [slot] }) else p) }

def BState.allocSlot (st : BState) : Nat × BState :=
  (st.nextSlot, { st with nextSlot := st.nextSlot + 1 })

def BState.pushNode (st : BState) (n : Resolvable) : Nat × BState :=
  (st.nodes.size, { st with nodes := st.nodes.push n })

/-- The builder's read-only context: schema, host type environment, validated
directive visitors by name, and the data-member fallback flag. -/
structure Ctx where
  schema : GSchema
  renv : REnv
  directives : List (String × DirVisitor) := []
  useFieldResolvers : Bool := false

def lookupVisitor (ds : List (String × DirVisitor)) (n : String) : Option DirVisitor :=
  (ds.find? (fun p => p.1 == n)).map Prod.snd

/-- `makeScalarExec`: the type switch over `reflect.New(resolverType)` —
exact matches against the four required primitives, then the
`decode.Unmarshaler` capability query. -/
def makeScalarExec (Γ : REnv) (scalarName : String) (resolverType : RType) : Except Err Resolvable :=
  let implementsType :=
    match resolverType with
    | .int32T => scalarName == "Int"
    | .float64T => scalarName == "Float"
    | .stringT => scalarName == "String"
    | .boolT => scalarName == "Boolean"
    | _ =>
      match scalarImplOf Γ resolverType with
      | some impl => impl scalarName
      | none => false
  if implementsType then .ok .scalar
  else .error (.cannotUseAs resolverType scalarName)

/-- Dispatch on the object-shaped schema type cases of `makeExec`'s first
switch: object, interface, union. -/
def objectish (s : GSchema) : SType → Option (String × List FieldDef × List String)
  | .namedRef n =>
    match s.lookupType n with
    | some (.object fields) => some (n, fields, [])
    | some (.interfaceT fields possibleTypes) => some (n, fields, possibleTypes)
    | some (.union members) => some (n, [], members)
    | _ => none
  | _ => none

/-- The directive-packer loop of `makeFieldExec` (no builder state involved:
the modelled packer builder is pure). -/
def makeDirectivePackers (ctx : Ctx) (fieldName : String) : List String → List (String × StructPacker) → Except Err (List (String × StructPacker))
  | [], acc => .ok acc
  | n :: rest, acc =>
    if n == "deprecated" then
      makeDirectivePackers ctx fieldName rest acc
    else
      match lookupVisitor ctx.directives n with
      | none => .error (.directiveOnFieldNoVisitor n fieldName)
      | some v =>
        if !v.isResolverInterceptor then
          makeDirectivePackers ctx fieldName rest acc
        else
          match ctx.schema.lookupDirective n with
          | none => .error (.directiveDefMissing n)
          | some dd =>
            match makeStructPacker dd.args v.rtype with
            | .error e => .error e
            | .ok p => makeDirectivePackers ctx fieldName rest (acc ++ [(n, p)])

end GraphQLGo

namespace GraphQLGo

/-- The zero values Go passes for the unused member parameter of
`makeFieldExec` (`reflect.Method` / `reflect.StructField` zero values). -/
def zeroMethod : RMethod := { name := "", inTypes := [], outTypes := [] }

def zeroField : RField := { name := "", type := RType.named "", anonymous := false }

/-- The context-parameter step of `makeFieldExec`: whether the first
remaining parameter is `context.Context`, and the parameters left after
consuming it. -/
def dropContext (inTypes : List RType) : Bool × List RType :=
  let hasContext := match inTypes with | c :: _ => c == contextType | [] => false
  (hasContext, if hasContext then inTypes.tail else inTypes)

/-- The subscription-channel adjustment of `makeFieldExec`: when the owning
object is the schema's subscription root and the declared return is a
channel, use the channel's element type. -/
def subAdjust (ctx : Ctx) (typeName : String) (out : RType) : RType :=
  match ctx.schema.lookupRoot "subscription" with
  | some sub =>
    if typeName == sub then
      match out with
      | .chan e => e
      | _ => out
    else out
  | none => out

mutual

/-- `execBuilder.assignExec`: memoized binding.  The arena translation makes
the target slot explicit: the function allocates the slot it registers (Go
passes the address of an existing location).  On a cache hit the entry only
gains the new target; on a miss the entry is inserted *before* construction,
the node is built eagerly, the entry's exec is set and the target recorded.
Every function of this group consumes one unit of fuel per call, keeping the
recursion structural; the fuel needed is bounded by the termination
theorems. -/
def assignExec (ctx : Ctx) : Nat → BState → SType → RType → Except Err (Nat × BState)
  | 0, _, _, _ => .error .outOfFuel
  | fuel + 1, st, t, resolverType =>
    let p := st.allocSlot
    let slot := p.1
    let st := p.2
    let k : TypePair := (t, resolverType)
    match st.lookupPair k with
    | some _ => .ok (slot, st.addTarget k slot)
    | none =>
      let st := st.insertPair k
      match makeExec ctx fuel st t resolverType with
      | .error e => .error e
      | .ok (nid, st) => .ok (slot, (st.setExec k nid).addTarget k slot)
termination_by structural fuel => fuel

/-- `execBuilder.makeExec`: strip one `NonNull`, dispatch object-shaped types
to object binding, otherwise require a pointer when nullable and dispatch to
the scalar/enum/list leaf cases. -/
def makeExec (ctx : Ctx) : Nat → BState → SType → RType → Except Err (Nat × BState)
  | 0, _, _, _ => .error .outOfFuel
  | fuel + 1, st, t0, resolverType =>
    let u := unwrapNonNull t0
    let t := u.1
    let nonNull := u.2
    match objectish ctx.schema t with
    | some ob => makeObjectExec ctx fuel st ob.1 ob.2.1 ob.2.2 nonNull resolverType
    | none =>
      match (if nonNull then some resolverType else (match resolverType with | .ptr e => some e | _ => none)) with
      | none => .error (.notAPointer resolverType)
      | some resolverType =>
        match t with
        | .namedRef n =>
          match ctx.schema.lookupType n with
          | some .scalar =>
            match makeScalarExec ctx.renv n resolverType with
            | .error e => .error e
            | .ok node => .ok (st.pushNode node)
          | some .enum => .ok (st.pushNode .scalar)
          | _ => .error (.goPanic ("invalid type: " ++ n))
        | .list ofType =>
          match resolverType with
          | .slice elemT =>
            match assignExec ctx fuel st ofType elemT with
            | .error e => .error e
            | .ok (slot, st) => .ok (st.pushNode (.list slot))
          | _ => .error (.notASlice resolverType)
        | _ => .error (.goPanic "invalid type")
termination_by structural fuel => fuel

/-- `execBuilder.makeObjectExec`: nullability check, per-field binding, then
type assertions when method resolvers are in effect or the resolver type is
not an interface. -/
def makeObjectExec (ctx : Ctx) : Nat → BState → String → List FieldDef → List String → Bool → RType → Except Err (Nat × BState)
  | 0, _, _, _, _, _, _ => .error .outOfFuel
  | fuel + 1, st, typeName, fields, possibleTypes, nonNull, resolverType =>
    if !nonNull && kindOf ctx.renv resolverType != Kind.ptr && kindOf ctx.renv resolverType != Kind.interface then
      .error (.notPtrOrInterface resolverType)
    else
      let methodHasReceiver := kindOf ctx.renv resolverType != Kind.interface
      let rt := unwrapPtr resolverType
      let fieldsCount := fieldCount ctx.renv rt []
      match makeFieldsLoop ctx fuel st typeName resolverType rt fieldsCount methodHasReceiver fields [] with
      | .error e => .error e
      | .ok (boundFields, st) =>
        if !ctx.useFieldResolvers || kindOf ctx.renv resolverType != Kind.interface then
          match makeAssertsLoop ctx fuel st typeName resolverType methodHasReceiver possibleTypes [] with
          | .error e => .error e
          | .ok (typeAssertions, st) => .ok (st.pushNode (.object typeName boundFields typeAssertions))
        else
          .ok (st.pushNode (.object typeName boundFields []))
termination_by structural fuel => fuel

/-- The per-declared-field loop of `makeObjectExec`: method lookup first,
then (under the fallback flag) the ambiguity check and data-member search,
then field-metadata extraction, wrapping its errors with the resolver
member's name. -/
def makeFieldsLoop (ctx : Ctx) : Nat → BState → String → RType → RType → List (String × Nat) → Bool → List FieldDef → List (String × Field) → Except Err (List (String × Field) × BState)
  | 0, _, _, _, _, _, _, _, _ => .error .outOfFuel
  | _ + 1, st, _, _, _, _, _, [], acc => .ok (acc, st)
  | fuel + 1, st, typeName, resolverType, rt, fieldsCount, methodHasReceiver, f :: rest, acc =>
    let methodIndex := findMethod ctx.renv resolverType f.name
    if ctx.useFieldResolvers && methodIndex == -1 &&
        getCount fieldsCount (toLowerStr (stripUnderscore f.name)) > 1 then
      .error (.ambiguousField resolverType typeName f.name)
    else
      let fieldIndex := if ctx.useFieldResolvers && methodIndex == -1 then findField ctx.renv rt f.name [] else []
      if methodIndex == -1 && fieldIndex.length == 0 then
        .error (.missingFieldMethod resolverType typeName f.name (findMethod ctx.renv (.ptr resolverType) f.name != -1))
      else
        let m := if methodIndex == -1 then none else methodAt ctx.renv resolverType methodIndex.toNat
        let sf := if methodIndex == -1 then fieldByIndex ctx.renv rt fieldIndex else none
        match makeFieldExec ctx fuel st typeName f m sf methodIndex fieldIndex methodHasReceiver with
        | .error e =>
          let resolverName :=
            if methodIndex != -1 then (match m with | some mm => mm.name | none => "")
            else (match sf with | some s => s.name | none => "")
          .error (.usedBy e resolverType resolverName)
        | .ok (fe, st) =>
          makeFieldsLoop ctx fuel st typeName resolverType rt fieldsCount methodHasReceiver rest (acc ++ [(f.name, fe)])
termination_by structural fuel => fuel

/-- `execBuilder.makeFieldExec`: validate the callable member's signature
(receiver exclusion, optional leading context, argument packer, no leftover
parameters, one or two returns with a trailing `error`), build directive
packers, then bind the field's result type.  Go passes zero values for the
member parameter that does not apply; the embedding passes `none`. -/
def makeFieldExec (ctx : Ctx) : Nat → BState → String → FieldDef → Option RMethod → Option RField → Int → List Nat → Bool → Except Err (Field × BState)
  | 0, _, _, _, _, _, _, _, _ => .error .outOfFuel
  | fuel + 1, st, typeName, f, m, sf, methodIndex, fieldIndex, _methodHasReceiver =>
    let validated : Except Err (Bool × Bool × Option StructPacker) :=
      if methodIndex != -1 then
        let mm := m.getD zeroMethod
        -- Go drops the receiver from `In` when the type is not an interface;
        -- `RMethod.inTypes` already excludes the receiver in both cases.
        let dc := dropContext mm.inTypes
        let hasContext := dc.1
        let inL := dc.2
        let argsStep : Except Err (Option StructPacker × List RType) :=
          if f.args.length > 0 then
            match inL with
            | [] => .error .missingArgsStruct
            | a :: restIn =>
              match makeStructPacker f.args a with
              | .error e => .error e
              | .ok p => .ok (some p, restIn)
          else .ok (none, inL)
        match argsStep with
        | .error e => .error e
        | .ok (argsPacker, inL) =>
          if inL.length > 0 then .error .tooManyArgs
          else if mm.outTypes.length < 1 then .error .tooFewReturnValues
          else if mm.outTypes.length > 2 then .error .tooManyReturnValues
          else
            let hasError := mm.outTypes.length == 2
            if hasError && mm.outTypes.getD 1 (RType.named "") != errorType then
              .error .lastReturnMustBeError
            else .ok (hasContext, hasError, argsPacker)
      else .ok (false, false, none)
    match validated with
    | .error e => .error e
    | .ok (hasContext, hasError, argsPacker) =>
      match makeDirectivePackers ctx f.name f.directives [] with
      | .error e => .error e
      | .ok directivesPackers =>
        let out :=
          if methodIndex != -1 then
            subAdjust ctx typeName ((m.getD zeroMethod).outTypes.headD (RType.named ""))
          else (sf.getD zeroField).type
        match assignExec ctx fuel st f.type out with
        | .error e => .error e
        | .ok (slot, st) =>
          .ok ({ fieldDef := f, typeName := typeName, methodIndex := methodIndex,
                 fieldIndex := fieldIndex, hasContext := hasContext, hasError := hasError,
                 argsPacker := argsPacker, directivesPackers := directivesPackers,
                 valueExec := slot,
                 traceLabel := "GraphQL field: " ++ typeName ++ "." ++ f.name }, st)
termination_by structural fuel => fuel

/-- The possible-concrete-types loop of `makeObjectExec`: each concrete type
requires a `To<Impl>` member with no explicit arguments and exactly two
returns; the concrete type is recursively bound against the first return. -/
def makeAssertsLoop (ctx : Ctx) : Nat → BState → String → RType → Bool → List String → List (String × TypeAssertion) → Except Err (List (String × TypeAssertion) × BState)
  | 0, _, _, _, _, _, _ => .error .outOfFuel
  | _ + 1, st, _, _, _, [], acc => .ok (acc, st)
  | fuel + 1, st, typeName, resolverType, methodHasReceiver, implName :: rest, acc =>
    let toName := "To" ++ implName
    let methodIndex := findMethod ctx.renv resolverType toName
    if methodIndex == -1 then
      .error (.missingToMethod resolverType typeName toName implName)
    else
      match methodAt ctx.renv resolverType methodIndex.toNat with
      | none => .error (.goPanic "method index out of range")
      | some m =>
        let expectedIn := if methodHasReceiver then 1 else 0
        if methodNumIn m methodHasReceiver != expectedIn then
          .error (.toMethodArgs resolverType typeName toName)
        else if m.outTypes.length != 2 then
          .error (.toMethodReturns resolverType typeName toName)
        else
          match assignExec ctx fuel st (SType.namedRef implName) (m.outTypes.headD (RType.named "")) with
          | .error e => .error e
          | .ok (slot, st) =>
            makeAssertsLoop ctx fuel st typeName resolverType methodHasReceiver rest
              (acc ++ [(implName, { methodIndex := methodIndex, typeExec := slot })])
termination_by structural fuel => fuel

end

end GraphQLGo

namespace GraphQLGo

def Query : String := "Query"
def Mutation : String := "Mutation"
def Subscription : String := "Subscription"

/-- `execBuilder.finish`'s patching pass: every pending target slot receives
its entry's built node (later writes win, though targets are in fact
disjoint).  Produces the slot → node assignment. -/
def finishAssignments (st : BState) : List (Nat × Option Nat) :=
  st.resMap.foldl (fun acc p => acc ++ p.2.targets.map (fun s => (s, p.2.exec))) []

/-- Read a patched slot: the value of the last write, `none` for a slot that
was never a target (a nil `Resolvable` in Go). -/
def slotVal (assigns : List (Nat × Option Nat)) (s : Nat) : Option Nat :=
  match assigns.reverse.find? (fun p => p.1 == s) with
  | some p => p.2
  | none => none

/-- `execBuilder.finish`: patch all pending targets, then finalize the packer
subsystem. -/
def finish (st : BState) : Except Err (List (Nat × Option Nat)) :=
  match packerFinish with
  | .error e => .error e
  | .ok _ => .ok (finishAssignments st)

/-- The visitor-registration loop of `applyDirectives`: reject duplicate
names, reject implementations with no recognized visitor capability. -/
def visitorLoop : List DirVisitor → List (String × DirVisitor) → Except Err (List (String × DirVisitor))
  | [], byName => .ok byName
  | v :: rest, byName =>
    let name := v.name
    match lookupVisitor byName name with
    | some _ => .error (.multipleDirectiveImpls name)
    | none =>
      if !v.isResolverInterceptor then .error (.invalidDirectiveVisitor name)
      else visitorLoop rest (byName ++ [(name, v)])

/-- The schema-side loop of `applyDirectives`: every directive whose declared
locations include FIELD_DEFINITION needs a registered implementation, except
the four built-ins. -/
def schemaDirLoop (byName : List (String × DirVisitor)) : List (String × DirectiveDef) → Except Err Unit
  | [] => .ok ()
  | (name, dd) :: rest =>
    let acceptedType := dd.locations.contains "FIELD_DEFINITION"
    if !acceptedType then schemaDirLoop byName rest
    else
      match lookupVisitor byName name with
      | some _ => schemaDirLoop byName rest
      | none =>
        if name == "include" || name == "skip" || name == "deprecated" || name == "specifiedBy" then
          schemaDirLoop byName rest
        else .error (.noVisitorForDirective name)

/-- `applyDirectives`. -/
def applyDirectives (s : GSchema) (visitors : List DirVisitor) : Except Err (List (String × DirVisitor)) :=
  match visitorLoop visitors [] with
  | .error e => .error e
  | .ok byName =>
    match schemaDirLoop byName s.directives with
    | .error e => .error e
    | .ok _ => .ok byName

/-- Modelled from the spec: a method of the root resolver *value* as
`reflect.Value.MethodByName` sees it (receiver already bound, so `numIn`
counts only declared parameters), together with the observable outcome of
invoking it: whether the returned value is nil, and — when the declared
return is an interface — the dynamic type of the value inside it. -/
structure ResolverMethod where
  name : String
  numIn : Nat := 0
  outTypes : List RType := []
  callNil : Bool := false
  callDynType : RType := RType.named ""

/-- Modelled from the spec: the application-supplied resolver instance —
its host type and the method set of its value. -/
structure ResolverVal where
  type : RType
  methods : List ResolverMethod := []

/-- The per-role resolver chosen by the root binder: the supplied instance
itself, or the value obtained from the role-named method (with the host type
the executor will bind against). -/
inductive RootRes where
  | base
  | fromMethod (op : String) (t : RType)

def RootRes.typeOf (r : RootRes) (base : ResolverVal) : RType :=
  match r with
  | .base => base.type
  | .fromMethod _ t => t

/-- The body of `ApplyResolver`'s per-operation loop: probe the role-named
method by exact name, validate its shape (no arguments, one pointer- or
interface-kinded return, non-nil result), and extract the role resolver;
fall back to the supplied instance when no method exists. -/
def resolveRootResolver (Γ : REnv) (rv : ResolverVal) (op : String) : Except Err RootRes :=
  match rv.methods.find? (fun m => m.name == op) with
  | none => .ok .base
  | some m =>
    if m.numIn != 0 then .error (.rootMethodArgs op rv.type m.numIn)
    else if m.outTypes.length != 1 then .error (.rootMethodReturns op rv.type m.outTypes.length)
    else
      let ot := m.outTypes.headD (RType.named "")
      if kindOf Γ ot != Kind.ptr && kindOf Γ ot != Kind.interface then
        .error (.rootMethodReturnKind op rv.type ot)
      else if m.callNil then .error (.rootMethodNilResult op rv.type)
      else
        match kindOf Γ ot with
        | .ptr => .ok (.fromMethod op ot)
        | .interface => .ok (.fromMethod op m.callDynType)
        | _ => .error (.goPanic "ureachable")

/-- Bind one declared root operation (skipped when the schema does not
declare it). -/
def bindRootOp (ctx : Ctx) (fuel : Nat) (st : BState) (opKey : String) (rt : RType) : Except Err (Option Nat × BState) :=
  match ctx.schema.lookupRoot opKey with
  | some tname =>
    match assignExec ctx fuel st (SType.namedRef tname) rt with
    | .error e => .error e
    | .ok (slot, st) => .ok (some slot, st)
  | none => .ok (none, st)

/-- The binder's output `Schema`: per-role dispatch trees (arena node ids)
and role resolvers, plus the node arena and the patched slot assignment. -/
structure Schema where
  schema : GSchema
  query : Option Nat := none
  mutation : Option Nat := none
  subscription : Option Nat := none
  queryResolver : Option RootRes := none
  mutationResolver : Option RootRes := none
  subscriptionResolver : Option RootRes := none
  nodes : Array Resolvable := #[]
  slots : List (Nat × Option Nat) := []

/-- `ApplyResolver`.  `fuel` bounds the memoized recursion depth of the
embedding; any value exceeding the number of distinct (schema type, resolver
type) pairs reachable from the roots is enough (see the termination
theorems). -/
def ApplyResolver (Γ : REnv) (fuel : Nat) (s : GSchema) (resolver : Option ResolverVal)
    (dirVisitors : List DirVisitor) (useFieldResolvers : Bool) : Except Err Schema :=
  match resolver with
  | none => .ok { schema := s }
  | some rv =>
    match applyDirectives s dirVisitors with
    | .error e => .error e
    | .ok ds =>
      let ctx : Ctx := { schema := s, renv := Γ, directives := ds, useFieldResolvers := useFieldResolvers }
      match resolveRootResolver Γ rv Query with
      | .error e => .error e
      | .ok qR =>
        match resolveRootResolver Γ rv Mutation with
        | .error e => .error e
        | .ok mR =>
          match resolveRootResolver Γ rv Subscription with
          | .error e => .error e
          | .ok sR =>
            match bindRootOp ctx fuel {} "query" (qR.typeOf rv) with
            | .error e => .error e
            | .ok (qSlot, st) =>
              match bindRootOp ctx fuel st "mutation" (mR.typeOf rv) with
              | .error e => .error e
              | .ok (mSlot, st) =>
                match bindRootOp ctx fuel st "subscription" (sR.typeOf rv) with
                | .error e => .error e
                | .ok (sSlot, st) =>
                  match finish st with
                  | .error e => .error e
                  | .ok assigns =>
                    .ok { schema := s
                          query := qSlot.bind (slotVal assigns)
                          mutation := mSlot.bind (slotVal assigns)
                          subscription := sSlot.bind (slotVal assigns)
                          queryResolver := some qR
                          mutationResolver := some mR
                          subscriptionResolver := some sR
                          nodes := st.nodes
                          slots := assigns }

end GraphQLGo

namespace GraphQLGo.scalar

/-- `scalar.ID`: the generic ID scalar wrapper. -/
structure ID (T : Type) where
  value : T

/-- `ID[T].ImplementsGraphQLType`: true exactly for the name "ID". -/
def ID.ImplementsGraphQLType {T : Type} (_ : ID T) (name : String) : Bool :=
  name == "ID"

end GraphQLGo.scalar

namespace GraphQLGo

/-! ## Claim theorems -/

/-- C10: `ID[T].ImplementsGraphQLType name` returns true exactly when `name`
equals "ID"; consequently, under the custom-scalar capability check of
`makeScalarExec`, an `ID[T]` resolver value binds to a custom scalar if and
only if that scalar's name is "ID". -/
theorem C10_id_implements_iff :
    (∀ (T : Type) (x : scalar.ID T) (name : String),
        x.ImplementsGraphQLType name = true ↔ name = "ID") ∧
    (∀ (T : Type) (x : scalar.ID T) (Γ : REnv) (tn : String) (d : RTypeDef) (scalarName : String),
        Γ.lookup tn = some d →
        d.scalarImpl = some x.ImplementsGraphQLType →
        ((makeScalarExec Γ scalarName (RType.named tn)).isOk = true ↔ scalarName = "ID")) := by
  constructor
  · intro T x name
    simp [scalar.ID.ImplementsGraphQLType]
  · intro T x Γ tn d scalarName hlook himpl
    simp only [makeScalarExec, scalarImplOf, hlook, himpl, scalar.ID.ImplementsGraphQLType]
    by_cases h : scalarName = "ID" <;> simp [h, Except.isOk, Except.toBool]

/-- C10 witness: a concrete `ID Nat` value registered as the capability of a
named host type binds to the custom scalar named "ID". -/
theorem C10_witness :
    (makeScalarExec
        [("ID", { kind := Kind.other,
                  scalarImpl := some ((⟨0⟩ : scalar.ID Nat).ImplementsGraphQLType) })]
        "ID" (RType.named "ID")).isOk = true :=
  (C10_id_implements_iff.2 Nat ⟨0⟩
      [("ID", { kind := Kind.other,
                scalarImpl := some ((⟨0⟩ : scalar.ID Nat).ImplementsGraphQLType) })]
      "ID"
      { kind := Kind.other,
        scalarImpl := some ((⟨0⟩ : scalar.ID Nat).ImplementsGraphQLType) }
      "ID" rfl rfl).mpr rfl

/-- C9: a nil resolver never fails: `ApplyResolver` returns a schema whose
three dispatch trees are nil, for every schema and every visitor list
(directive validation, root binding and type resolution are all skipped). -/
theorem C9_nil_resolver_trivial_schema :
    ∀ (Γ : REnv) (fuel : Nat) (s : GSchema) (dirVisitors : List DirVisitor) (useFieldResolvers : Bool),
      ApplyResolver Γ fuel s none dirVisitors useFieldResolvers = .ok { schema := s } ∧
      Schema.query { schema := s } = none ∧
      Schema.mutation { schema := s } = none ∧
      Schema.subscription { schema := s } = none := by
  intro Γ fuel s vis u
  exact ⟨rfl, rfl, rfl, rfl⟩

/-- C2 counterexample: a named host type that is not the 32-bit integer type
but satisfies the `decode.Unmarshaler` capability affirming "Int" binds
successfully to the built-in scalar `Int` — the claim that binding `Int`
fails for any host type other than the exact 32-bit integer type is false at
this input. -/
theorem C2_counterexample :
    RType.named "MyInt" ≠ RType.int32T ∧
    makeScalarExec [("MyInt", { kind := Kind.other, scalarImpl := some (fun n => n == "Int") })]
      "Int" (RType.named "MyInt") = .ok .scalar := by
  exact ⟨by decide, rfl⟩

/-- C2 (amended): binding the built-in scalar `Int` succeeds exactly when the
candidate resolver type is the 32-bit integer type or exposes the
`decode.Unmarshaler` capability affirming "Int" (and analogously `Float`,
`String`, `Boolean` for the 64-bit float, string and bool types); every
failure error names both the resolver type and the scalar name. -/
theorem C2_builtin_scalars_exact_or_capability :
    ∀ (Γ : REnv) (rt : RType),
      ((makeScalarExec Γ "Int" rt).isOk = true ↔
        rt = RType.int32T ∨ (∃ impl, scalarImplOf Γ rt = some impl ∧ impl "Int" = true)) ∧
      ((makeScalarExec Γ "Float" rt).isOk = true ↔
        rt = RType.float64T ∨ (∃ impl, scalarImplOf Γ rt = some impl ∧ impl "Float" = true)) ∧
      ((makeScalarExec Γ "String" rt).isOk = true ↔
        rt = RType.stringT ∨ (∃ impl, scalarImplOf Γ rt = some impl ∧ impl "String" = true)) ∧
      ((makeScalarExec Γ "Boolean" rt).isOk = true ↔
        rt = RType.boolT ∨ (∃ impl, scalarImplOf Γ rt = some impl ∧ impl "Boolean" = true)) ∧
      (∀ (name : String) (e : Err), makeScalarExec Γ name rt = .error e → e = .cannotUseAs rt name) := by
  intro Γ rt
  have gen : ∀ (nm : String),
      (makeScalarExec Γ nm rt).isOk = true ↔
        ((rt = RType.int32T ∧ nm = "Int") ∨ (rt = RType.float64T ∧ nm = "Float") ∨
         (rt = RType.stringT ∧ nm = "String") ∨ (rt = RType.boolT ∧ nm = "Boolean") ∨
         (∃ impl, scalarImplOf Γ rt = some impl ∧ impl nm = true)) := by
    intro nm
    cases rt with
    | int32T => by_cases h : nm = "Int" <;> simp [makeScalarExec, scalarImplOf, h, Except.isOk, Except.toBool]
    | float64T => by_cases h : nm = "Float" <;> simp [makeScalarExec, scalarImplOf, h, Except.isOk, Except.toBool]
    | stringT => by_cases h : nm = "String" <;> simp [makeScalarExec, scalarImplOf, h, Except.isOk, Except.toBool]
    | boolT => by_cases h : nm = "Boolean" <;> simp [makeScalarExec, scalarImplOf, h, Except.isOk, Except.toBool]
    | named n =>
      cases h : scalarImplOf Γ (RType.named n) with
      | none => simp [makeScalarExec, h, Except.isOk, Except.toBool]
      | some impl =>
        by_cases himpl : impl nm = true <;>
          simp [makeScalarExec, h, himpl, Except.isOk, Except.toBool]
    | ptr t => simp [makeScalarExec, scalarImplOf, Except.isOk, Except.toBool]
    | slice t => simp [makeScalarExec, scalarImplOf, Except.isOk, Except.toBool]
    | chan t => simp [makeScalarExec, scalarImplOf, Except.isOk, Except.toBool]
  refine ⟨?_, ?_, ?_, ?_, ?_⟩
  · rw [gen "Int"]; simp
  · rw [gen "Float"]; simp
  · rw [gen "String"]; simp
  · rw [gen "Boolean"]; simp
  · intro name e
    simp only [makeScalarExec]
    split
    · intro h; cases h
    · intro h; cases h; rfl

/-- C2 witness: the exact primitive binds, and the failure at a numerically
compatible but different type names the resolver type and the scalar name. -/
theorem C2_witness :
    (makeScalarExec [] "Int" RType.int32T).isOk = true ∧
    Err.cannotUseAs RType.float64T "Int" = Err.cannotUseAs RType.float64T "Int" :=
  ⟨(C2_builtin_scalars_exact_or_capability [] RType.int32T).1.mpr (Or.inl rfl),
   (C2_builtin_scalars_exact_or_capability [] RType.float64T).2.2.2.2 "Int" _ rfl⟩

end GraphQLGo

namespace GraphQLGo

/-- C3: for a field dispatched to a callable member, after excluding the
implicit receiver and an optional leading `context.Context` parameter
(recorded in `HasContext`): binding fails with `missingArgsStruct` when the
field declares arguments but no parameter remains; any leftover parameter is
a `tooManyArgs` error; the member must return one or two values — zero or
more than two fail — and with two returns the second must be the `error`
type (recorded in `HasError`). -/
theorem C3_field_method_signature :
    ∀ (ctx : Ctx) (fuel : Nat) (st : BState) (typeName : String) (f : FieldDef)
      (m : RMethod) (sf : Option RField) (methodIndex : Int) (fieldIndex : List Nat)
      (methodHasReceiver : Bool) (hasCtx : Bool) (inL : List RType),
      methodIndex ≠ -1 →
      dropContext m.inTypes = (hasCtx, inL) →
      ((f.args ≠ [] → inL = [] →
          makeFieldExec ctx (fuel + 1) st typeName f (some m) sf methodIndex fieldIndex methodHasReceiver
            = .error .missingArgsStruct) ∧
       (f.args = [] → inL ≠ [] →
          makeFieldExec ctx (fuel + 1) st typeName f (some m) sf methodIndex fieldIndex methodHasReceiver
            = .error .tooManyArgs) ∧
       (∀ a r, f.args ≠ [] → inL = a :: r → r ≠ [] →
          makeFieldExec ctx (fuel + 1) st typeName f (some m) sf methodIndex fieldIndex methodHasReceiver
            = .error .tooManyArgs) ∧
       ((f.args = [] ∧ inL = []) ∨ (f.args ≠ [] ∧ ∃ a, inL = [a]) →
          ((m.outTypes = [] →
              makeFieldExec ctx (fuel + 1) st typeName f (some m) sf methodIndex fieldIndex methodHasReceiver
                = .error .tooFewReturnValues) ∧
           (m.outTypes.length > 2 →
              makeFieldExec ctx (fuel + 1) st typeName f (some m) sf methodIndex fieldIndex methodHasReceiver
                = .error .tooManyReturnValues) ∧
           (∀ o1 o2, m.outTypes = [o1, o2] → o2 ≠ errorType →
              makeFieldExec ctx (fuel + 1) st typeName f (some m) sf methodIndex fieldIndex methodHasReceiver
                = .error .lastReturnMustBeError))) ∧
       (∀ fe st', makeFieldExec ctx (fuel + 1) st typeName f (some m) sf methodIndex fieldIndex methodHasReceiver
            = .ok (fe, st') →
          fe.hasContext = hasCtx ∧ fe.hasError = (m.outTypes.length == 2) ∧
          1 ≤ m.outTypes.length ∧ m.outTypes.length ≤ 2 ∧
          (∀ o1 o2, m.outTypes = [o1, o2] → o2 = errorType))) := by
  intro ctx fuel st typeName f m sf methodIndex fieldIndex mhr hasCtx inL hne hdrop
  have hbne : (methodIndex != -1) = true := by simpa using hne
  simp only [makeFieldExec, Option.getD, hbne, if_true, hdrop]
  refine ⟨?_, ?_, ?_, ?_, ?_⟩
  · intro ha h0
    subst h0
    obtain ⟨x, xs, hfa⟩ := List.exists_cons_of_ne_nil ha
    simp [hfa, makeStructPacker]
  · intro ha hinL
    obtain ⟨x, xs, hx⟩ := List.exists_cons_of_ne_nil hinL
    simp [ha, hx, makeStructPacker]
  · intro a r ha hx hr
    obtain ⟨x, xs, hfa⟩ := List.exists_cons_of_ne_nil ha
    obtain ⟨y, ys, hy⟩ := List.exists_cons_of_ne_nil hr
    simp [hfa, hx, hy, makeStructPacker]
  · intro hok
    refine ⟨?_, ?_, ?_⟩
    · intro hout
      rcases hok with ⟨ha, hi⟩ | ⟨ha, a, hi⟩
      · simp [ha, hi, hout, makeStructPacker]
      · obtain ⟨x, xs, hfa⟩ := List.exists_cons_of_ne_nil ha
        simp [hfa, hi, hout, makeStructPacker]
    · intro hlen
      have hn1 : ¬ (m.outTypes.length < 1) := by omega
      rcases hok with ⟨ha, hi⟩ | ⟨ha, a, hi⟩
      · simp [ha, hi, hn1, hlen, makeStructPacker]
      · obtain ⟨x, xs, hfa⟩ := List.exists_cons_of_ne_nil ha
        simp [hfa, hi, hn1, hlen, makeStructPacker]
    · intro o1 o2 houts ho2
      have hn1 : ¬ (m.outTypes.length < 1) := by simp [houts]
      have hn2 : ¬ (m.outTypes.length > 2) := by simp [houts]
      rcases hok with ⟨ha, hi⟩ | ⟨ha, a, hi⟩
      · simp [ha, hi, hn1, hn2, houts, ho2, makeStructPacker]
      · obtain ⟨x, xs, hfa⟩ := List.exists_cons_of_ne_nil ha
        simp [hfa, hi, hn1, hn2, houts, ho2, makeStructPacker]
  · intro fe st' hok
    by_cases h1 : f.args.length > 0
    · cases hinL : inL with
      | nil =>
        rw [hinL] at hok
        simp [h1, makeStructPacker] at hok
      | cons a r =>
        rw [hinL] at hok
        simp only [h1, if_true, makeStructPacker] at hok
        by_cases h2 : r.length > 0
        · simp [h2] at hok
        · simp only [h2, if_false] at hok
          by_cases h3 : m.outTypes.length < 1
          · simp [h3] at hok
          · simp only [h3, if_false] at hok
            by_cases h4 : m.outTypes.length > 2
            · simp [h4] at hok
            · simp only [h4, if_false] at hok
              by_cases h5 : (m.outTypes.length == 2 && m.outTypes.getD 1 (RType.named "") != errorType) = true
              · rw [if_pos h5] at hok
                exact absurd hok (by simp)
              · rw [if_neg h5] at hok
                simp only [List.headD_eq_head?] at hok
                cases hdp : makeDirectivePackers ctx f.name f.directives [] with
                | error e => simp [hdp] at hok
                | ok dps =>
                  rw [hdp] at hok
                  cases has : assignExec ctx fuel st f.type
                      (subAdjust ctx typeName (m.outTypes.head?.getD (RType.named ""))) with
                  | error e => simp [has] at hok
                  | ok pr =>
                    rw [has] at hok
                    cases hok
                    refine ⟨rfl, rfl, by omega, by omega, ?_⟩
                    intro o1 o2 houts
                    rw [houts] at h5
                    simpa using h5
    · simp only [h1, if_false] at hok
      by_cases h2 : inL.length > 0
      · simp [h2] at hok
      · simp only [h2, if_false] at hok
        by_cases h3 : m.outTypes.length < 1
        · simp [h3] at hok
        · simp only [h3, if_false] at hok
          by_cases h4 : m.outTypes.length > 2
          · simp [h4] at hok
          · simp only [h4, if_false] at hok
            by_cases h5 : (m.outTypes.length == 2 && m.outTypes.getD 1 (RType.named "") != errorType) = true
            · rw [if_pos h5] at hok
              exact absurd hok (by simp)
            · rw [if_neg h5] at hok
              simp only [List.headD_eq_head?] at hok
              cases hdp : makeDirectivePackers ctx f.name f.directives [] with
              | error e => simp [hdp] at hok
              | ok dps =>
                rw [hdp] at hok
                cases has : assignExec ctx fuel st f.type
                    (subAdjust ctx typeName (m.outTypes.head?.getD (RType.named ""))) with
                | error e => simp [has] at hok
                | ok pr =>
                  rw [has] at hok
                  cases hok
                  refine ⟨rfl, rfl, by omega, by omega, ?_⟩
                  intro o1 o2 houts
                  rw [houts] at h5
                  simpa using h5

end GraphQLGo

namespace GraphQLGo

/-- C3 witness: a member with no parameters cannot receive declared field
arguments, and a member with a leftover parameter fails when the field
declares none. -/
theorem C3_witness :
    makeFieldExec { schema := {}, renv := [] } 1 {} "T"
        { name := "f", args := ["x"], type := SType.namedRef "S" }
        (some { name := "F", inTypes := [], outTypes := [RType.stringT] })
        none 0 [] true
      = .error .missingArgsStruct ∧
    makeFieldExec { schema := {}, renv := [] } 1 {} "T"
        { name := "g", args := [], type := SType.namedRef "S" }
        (some { name := "G", inTypes := [RType.stringT], outTypes := [RType.stringT] })
        none 0 [] true
      = .error .tooManyArgs :=
  ⟨(C3_field_method_signature { schema := {}, renv := [] } 0 {} "T"
      { name := "f", args := ["x"], type := SType.namedRef "S" }
      { name := "F", inTypes := [], outTypes := [RType.stringT] }
      none 0 [] true false [] (by decide) rfl).1 (by decide) rfl,
   (C3_field_method_signature { schema := {}, renv := [] } 0 {} "T"
      { name := "g", args := [], type := SType.namedRef "S" }
      { name := "G", inTypes := [RType.stringT], outTypes := [RType.stringT] }
      none 0 [] true false [RType.stringT] (by decide) rfl).2.1 rfl (by decide)⟩

end GraphQLGo

namespace GraphQLGo

/-- C5: for an interface/union schema type with possible concrete member
types, when method resolvers are in effect or the resolver type is not an
interface: each possible concrete type `Impl` requires a callable member
matching `To<Impl>` (case/underscore-insensitively, via `findMethod`) — a
missing member fails binding naming both the conversion method and the
concrete type — and that member must take no explicit arguments beyond the
implicit receiver and return exactly two values; the concrete type is then
recursively bound against the member's first return type. -/
theorem C5_type_assertions :
    ∀ (ctx : Ctx) (fuel : Nat) (st : BState) (typeName implName : String)
      (nonNull : Bool) (resolverType : RType) (mhr : Bool),
      (!ctx.useFieldResolvers || kindOf ctx.renv resolverType != Kind.interface) = true →
      (nonNull = true ∨ kindOf ctx.renv resolverType = Kind.ptr ∨ kindOf ctx.renv resolverType = Kind.interface) →
      mhr = (kindOf ctx.renv resolverType != Kind.interface) →
      ((findMethod ctx.renv resolverType ("To" ++ implName) = -1 →
          makeObjectExec ctx (fuel + 3) st typeName [] [implName] nonNull resolverType
            = .error (.missingToMethod resolverType typeName ("To" ++ implName) implName)) ∧
       (∀ (i : Int) (m : RMethod), findMethod ctx.renv resolverType ("To" ++ implName) = i → i ≠ -1 →
          methodAt ctx.renv resolverType i.toNat = some m →
          ((methodNumIn m mhr ≠ (if mhr then 1 else 0) →
              makeObjectExec ctx (fuel + 3) st typeName [] [implName] nonNull resolverType
                = .error (.toMethodArgs resolverType typeName ("To" ++ implName))) ∧
           (methodNumIn m mhr = (if mhr then 1 else 0) → m.outTypes.length ≠ 2 →
              makeObjectExec ctx (fuel + 3) st typeName [] [implName] nonNull resolverType
                = .error (.toMethodReturns resolverType typeName ("To" ++ implName))) ∧
           (methodNumIn m mhr = (if mhr then 1 else 0) → m.outTypes.length = 2 →
              ∀ (slot : Nat) (st' : BState),
                assignExec ctx (fuel + 1) st (SType.namedRef implName) (m.outTypes.headD (RType.named ""))
                  = .ok (slot, st') →
                makeObjectExec ctx (fuel + 3) st typeName [] [implName] nonNull resolverType
                  = .ok (st'.pushNode
                      (.object typeName [] [(implName, { methodIndex := i, typeExec := slot })])))))) := by
  intro ctx fuel st typeName implName nonNull resolverType mhr hflag hnull hmhr
  have hcond : (!nonNull && kindOf ctx.renv resolverType != Kind.ptr &&
      kindOf ctx.renv resolverType != Kind.interface) = false := by
    rcases hnull with h | h | h <;> simp [h]
  simp only [makeObjectExec, hcond, Bool.false_eq_true, if_false, makeFieldsLoop, hflag, if_true]
  refine ⟨?_, ?_⟩
  · intro hmiss
    simp only [makeAssertsLoop, hmiss]
    simp
  · intro i m hfind hne hmat
    subst hmhr
    have hbne : (i == -1) = false := by simpa using hne
    refine ⟨?_, ?_, ?_⟩
    · intro hargs
      have hargsb : (methodNumIn m (kindOf ctx.renv resolverType != Kind.interface)
          != (if (kindOf ctx.renv resolverType != Kind.interface) = true then 1 else 0)) = true := by
        simpa [bne_iff_ne] using hargs
      simp only [makeAssertsLoop, hfind, hbne, Bool.false_eq_true, if_false, hmat, hargsb, if_true]
    · intro hargs hrets
      have hargsb : (methodNumIn m (kindOf ctx.renv resolverType != Kind.interface)
          != (if (kindOf ctx.renv resolverType != Kind.interface) = true then 1 else 0)) = false := by
        simp [hargs]
      have hretsb : (m.outTypes.length != 2) = true := by simpa [bne_iff_ne] using hrets
      simp only [makeAssertsLoop, hfind, hbne, Bool.false_eq_true, if_false, hmat, hargsb, hretsb,
        if_true]
    · intro hargs hrets slot st' hassign
      have hargsb : (methodNumIn m (kindOf ctx.renv resolverType != Kind.interface)
          != (if (kindOf ctx.renv resolverType != Kind.interface) = true then 1 else 0)) = false := by
        simp [hargs]
      have hretsb : (m.outTypes.length != 2) = false := by simp [hrets]
      simp only [makeAssertsLoop, hfind, hbne, Bool.false_eq_true, if_false, hmat, hargsb, hretsb,
        hassign]
      rfl

end GraphQLGo

namespace GraphQLGo

def c5schema : GSchema := { types := [("A", .object [])] }

def c5renvMissing : REnv := [("RU", { kind := .struct })]

def c5renvOk : REnv :=
  [("RU", { kind := .struct,
            methods := [{ name := "ToA", inTypes := [], outTypes := [.ptr (.named "RA"), .boolT] }] }),
   ("RA", { kind := .struct })]

/-- C5 witness: a resolver without a `ToA` member fails naming the method
and the concrete type; a resolver with a well-shaped `ToA` member binds the
concrete type against the member's first return type. -/
theorem C5_witness :
    makeObjectExec { schema := c5schema, renv := c5renvMissing } 3 {} "U" [] ["A"] true (RType.named "RU")
      = .error (.missingToMethod (RType.named "RU") "U" "ToA" "A") ∧
    makeObjectExec { schema := c5schema, renv := c5renvOk } 6 {} "U" [] ["A"] true (RType.named "RU")
      = .ok (BState.pushNode
        { resMap := [((SType.namedRef "A", RType.ptr (RType.named "RA")),
                      { exec := some 0, targets := [0] })],
          nodes := #[Resolvable.object "A" [] []],
          nextSlot := 1 }
        (.object "U" [] [("A", { methodIndex := 0, typeExec := 0 })])) :=
  ⟨(C5_type_assertions { schema := c5schema, renv := c5renvMissing } 0 {} "U" "A" true
      (RType.named "RU") true rfl (Or.inl rfl) (by decide)).1 (by decide),
   ((C5_type_assertions { schema := c5schema, renv := c5renvOk } 3 {} "U" "A" true
      (RType.named "RU") true rfl (Or.inl rfl) (by decide)).2 0
      { name := "ToA", inTypes := [], outTypes := [.ptr (.named "RA"), .boolT] }
      (by decide) (by decide) rfl).2.2 rfl rfl 0
      { resMap := [((SType.namedRef "A", RType.ptr (RType.named "RA")),
                    { exec := some 0, targets := [0] })],
        nodes := #[Resolvable.object "A" [] []],
        nextSlot := 1 }
      rfl⟩

end GraphQLGo

namespace GraphQLGo

/-- C4: with data-member fallback enabled and no callable member matching the
field: if more than one data member (across embedded members, counted by
`fieldCount` after normalization) shares the field's normalized name, binding
fails with an ambiguity error naming the field; if exactly one matches,
binding succeeds via data-member binding and the Field records the non-empty
field path. -/
theorem C4_fallback_ambiguity_and_unique_path :
    (∀ (ctx : Ctx) (fuel : Nat) (st : BState) (typeName : String) (f : FieldDef)
       (rest : List FieldDef) (possibleTypes : List String) (nonNull : Bool) (resolverType : RType),
       ctx.useFieldResolvers = true →
       (nonNull = true ∨ kindOf ctx.renv resolverType = Kind.ptr ∨ kindOf ctx.renv resolverType = Kind.interface) →
       findMethod ctx.renv resolverType f.name = -1 →
       getCount (fieldCount ctx.renv (unwrapPtr resolverType) []) (toLowerStr (stripUnderscore f.name)) > 1 →
       makeObjectExec ctx (fuel + 2) st typeName (f :: rest) possibleTypes nonNull resolverType
         = .error (.ambiguousField resolverType typeName f.name)) ∧
    (∀ (ctx : Ctx) (fuel : Nat) (st : BState) (typeName : String) (f : FieldDef)
       (nonNull : Bool) (resolverType : RType) (p : List Nat) (sf : RField) (slot : Nat) (st' : BState),
       ctx.useFieldResolvers = true →
       (nonNull = true ∨ kindOf ctx.renv resolverType = Kind.ptr ∨ kindOf ctx.renv resolverType = Kind.interface) →
       findMethod ctx.renv resolverType f.name = -1 →
       getCount (fieldCount ctx.renv (unwrapPtr resolverType) []) (toLowerStr (stripUnderscore f.name)) = 1 →
       findField ctx.renv (unwrapPtr resolverType) f.name [] = p →
       p ≠ [] →
       fieldByIndex ctx.renv (unwrapPtr resolverType) p = some sf →
       f.directives = [] →
       assignExec ctx fuel st f.type sf.type = .ok (slot, st') →
       makeObjectExec ctx (fuel + 3) st typeName [f] [] nonNull resolverType
         = .ok (st'.pushNode (.object typeName
             [(f.name, { fieldDef := f, typeName := typeName, methodIndex := -1, fieldIndex := p,
                         hasContext := false, hasError := false, argsPacker := none,
                         directivesPackers := [], valueExec := slot,
                         traceLabel := "GraphQL field: " ++ typeName ++ "." ++ f.name })] []))) := by
  constructor
  · intro ctx fuel st typeName f rest possibleTypes nonNull resolverType huse hnull hfm hcnt
    have hcond : (!nonNull && kindOf ctx.renv resolverType != Kind.ptr &&
        kindOf ctx.renv resolverType != Kind.interface) = false := by
      rcases hnull with h | h | h <;> simp [h]
    simp only [makeObjectExec, hcond, Bool.false_eq_true, if_false, makeFieldsLoop, huse, hfm, hcnt,
      decide_True, Bool.and_true, Bool.true_and]
    simp [hcnt]
  · intro ctx fuel st typeName f nonNull resolverType p sf slot st' huse hnull hfm hcnt hff hp hsf hdir hassign
    have hcond : (!nonNull && kindOf ctx.renv resolverType != Kind.ptr &&
        kindOf ctx.renv resolverType != Kind.interface) = false := by
      rcases hnull with h | h | h <;> simp [h]
    have hplen : (p.length == 0) = false := by
      simp [List.length_eq_zero, hp]
    simp only [makeObjectExec, hcond, Bool.false_eq_true, if_false, makeFieldsLoop, huse, hfm, hcnt,
      hff, hplen]
    simp only [hcnt, gt_iff_lt, Nat.lt_irrefl, decide_False, Bool.and_false, Bool.false_eq_true,
      if_false, hff, hplen, Bool.and_self, Bool.true_and]
    simp only [show ((-1 : Int) == -1) = true from rfl, Bool.and_true, Bool.true_and, hplen]
    simp only [makeFieldExec, show ((-1 : Int) != -1) = false from rfl, Bool.false_eq_true, if_false,
      hdir, makeDirectivePackers, hsf, Option.getD, hassign]
    simp [makeFieldsLoop, makeAssertsLoop]
    rw [if_neg hp]
    simp only [hsf, hassign]
end GraphQLGo

namespace GraphQLGo

def c4schema : GSchema := { types := [("String", .scalar)] }

def c4renvAmbiguous : REnv :=
  [("RS", { kind := .struct, fields := [{ name := "A", type := .named "EmbA", anonymous := true },
                                        { name := "B", type := .named "EmbB", anonymous := true }] }),
   ("EmbA", { kind := .struct, fields := [{ name := "Name", type := .stringT, anonymous := false }] }),
   ("EmbB", { kind := .struct, fields := [{ name := "Name", type := .stringT, anonymous := false }] })]

def c4renvUnique : REnv :=
  [("RU2", { kind := .struct, fields := [{ name := "A", type := .named "EmbA", anonymous := true }] }),
   ("EmbA", { kind := .struct, fields := [{ name := "Name", type := .stringT, anonymous := false }] })]

/-- C4 witness: two embedded members exposing `Name` make the field `name`
ambiguous; a single embedded member binds it via the field path `[0, 0]`. -/
theorem C4_witness :
    makeObjectExec { schema := c4schema, renv := c4renvAmbiguous, useFieldResolvers := true } 2 {}
        "O" [{ name := "name", type := .nonNull (.namedRef "String") }] [] true (RType.named "RS")
      = .error (.ambiguousField (RType.named "RS") "O" "name") ∧
    makeObjectExec { schema := c4schema, renv := c4renvUnique, useFieldResolvers := true } 5 {}
        "O" [{ name := "name", type := .nonNull (.namedRef "String") }] [] true (RType.named "RU2")
      = .ok (BState.pushNode
          { resMap := [((SType.nonNull (SType.namedRef "String"), RType.stringT),
                        { exec := some 0, targets := [0] })],
            nodes := #[Resolvable.scalar],
            nextSlot := 1 }
          (.object "O"
            [("name", { fieldDef := { name := "name", type := .nonNull (.namedRef "String") },
                        typeName := "O", methodIndex := -1, fieldIndex := [0, 0],
                        hasContext := false, hasError := false, argsPacker := none,
                        directivesPackers := [], valueExec := 0,
                        traceLabel := "GraphQL field: " ++ "O" ++ "." ++ "name" })] [])) :=
  ⟨C4_fallback_ambiguity_and_unique_path.1
      { schema := c4schema, renv := c4renvAmbiguous, useFieldResolvers := true } 0 {}
      "O" { name := "name", type := .nonNull (.namedRef "String") } [] [] true (RType.named "RS")
      rfl (Or.inl rfl) (by decide) (by decide),
   C4_fallback_ambiguity_and_unique_path.2
      { schema := c4schema, renv := c4renvUnique, useFieldResolvers := true } 2 {}
      "O" { name := "name", type := .nonNull (.namedRef "String") } true (RType.named "RU2")
      [0, 0] { name := "Name", type := RType.stringT, anonymous := false } 0
      { resMap := [((SType.nonNull (SType.namedRef "String"), RType.stringT),
                    { exec := some 0, targets := [0] })],
        nodes := #[Resolvable.scalar],
        nextSlot := 1 }
      rfl (Or.inl rfl) (by decide) (by decide) (by decide) (by decide) (by decide) rfl rfl⟩

end GraphQLGo

namespace GraphQLGo

theorem resolveRoot_err_args (Γ : REnv) (rv : ResolverVal) (op : String) (m : ResolverMethod)
    (hfind : rv.methods.find? (fun mm => mm.name == op) = some m) (hnum : m.numIn ≠ 0) :
    resolveRootResolver Γ rv op = .error (.rootMethodArgs op rv.type m.numIn) := by
  have hb : (m.numIn != 0) = true := by simpa using hnum
  simp only [resolveRootResolver, hfind, hb, if_true]

theorem resolveRoot_err_returns (Γ : REnv) (rv : ResolverVal) (op : String) (m : ResolverMethod)
    (hfind : rv.methods.find? (fun mm => mm.name == op) = some m) (hnum : m.numIn = 0)
    (hlen : m.outTypes.length ≠ 1) :
    resolveRootResolver Γ rv op = .error (.rootMethodReturns op rv.type m.outTypes.length) := by
  have hb : (m.numIn != 0) = false := by simp [hnum]
  have hl : (m.outTypes.length != 1) = true := by simpa using hlen
  simp only [resolveRootResolver, hfind, hb, Bool.false_eq_true, if_false, hl, if_true]

theorem resolveRoot_err_kind (Γ : REnv) (rv : ResolverVal) (op : String) (m : ResolverMethod) (ot : RType)
    (hfind : rv.methods.find? (fun mm => mm.name == op) = some m) (hnum : m.numIn = 0)
    (hout : m.outTypes = [ot]) (hk1 : kindOf Γ ot ≠ Kind.ptr) (hk2 : kindOf Γ ot ≠ Kind.interface) :
    resolveRootResolver Γ rv op = .error (.rootMethodReturnKind op rv.type ot) := by
  have hb : (m.numIn != 0) = false := by simp [hnum]
  have hl : (m.outTypes.length != 1) = false := by simp [hout]
  have hkc : (kindOf Γ ot != Kind.ptr && kindOf Γ ot != Kind.interface) = true := by
    simp [bne_iff_ne, hk1, hk2]
  simp only [resolveRootResolver, hfind, hb, Bool.false_eq_true, if_false, hl, hout,
    List.headD_cons, hkc, if_true]
  simp

theorem resolveRoot_err_nil (Γ : REnv) (rv : ResolverVal) (op : String) (m : ResolverMethod) (ot : RType)
    (hfind : rv.methods.find? (fun mm => mm.name == op) = some m) (hnum : m.numIn = 0)
    (hout : m.outTypes = [ot]) (hk : kindOf Γ ot = Kind.ptr ∨ kindOf Γ ot = Kind.interface)
    (hnil : m.callNil = true) :
    resolveRootResolver Γ rv op = .error (.rootMethodNilResult op rv.type) := by
  have hb : (m.numIn != 0) = false := by simp [hnum]
  have hl : (m.outTypes.length != 1) = false := by simp [hout]
  have hkc : (kindOf Γ ot != Kind.ptr && kindOf Γ ot != Kind.interface) = false := by
    rcases hk with h | h <;> simp [h]
  simp only [resolveRootResolver, hfind, hb, Bool.false_eq_true, if_false, hl, hout,
    List.headD_cons, hkc, hnil, if_true]
  simp

theorem resolveRoot_base (Γ : REnv) (rv : ResolverVal) (op : String)
    (hfind : rv.methods.find? (fun mm => mm.name == op) = none) :
    resolveRootResolver Γ rv op = .ok .base := by
  simp only [resolveRootResolver, hfind]

/-- A role-probing error for any of the three roles aborts `ApplyResolver`,
whatever the schema declares. -/
theorem applyResolver_error_of_role_error (Γ : REnv) (fuel : Nat) (s : GSchema) (rv : ResolverVal)
    (vis : List DirVisitor) (u : Bool) (e : Err)
    (h : resolveRootResolver Γ rv Query = .error e ∨ resolveRootResolver Γ rv Mutation = .error e ∨
         resolveRootResolver Γ rv Subscription = .error e) :
    ∃ e', ApplyResolver Γ fuel s (some rv) vis u = .error e' := by
  simp only [ApplyResolver]
  cases had : applyDirectives s vis with
  | error e0 => exact ⟨e0, rfl⟩
  | ok ds =>
    rcases h with h | h | h
    · exact ⟨e, by simp only [h]⟩
    · cases hq : resolveRootResolver Γ rv Query with
      | error e0 => exact ⟨e0, rfl⟩
      | ok qR => exact ⟨e, by simp only [hq, h]⟩
    · cases hq : resolveRootResolver Γ rv Query with
      | error e0 => exact ⟨e0, rfl⟩
      | ok qR =>
        cases hm : resolveRootResolver Γ rv Mutation with
        | error e0 => exact ⟨e0, by simp only [hq, hm]⟩
        | ok mR => exact ⟨e, by simp only [hq, hm, h]⟩

end GraphQLGo

namespace GraphQLGo

/-- C6: a role-named method must take no arguments, return exactly one
pointer- or interface-kinded value and yield a non-nil result — each
violation is a descriptive binding error; without such a method the supplied
resolver instance itself becomes the role's resolver, and binding succeeds
when the base resolver satisfies every declared root type (the pipeline on
the base resolver runs to completion). -/
theorem C6_root_resolver_contract :
    (∀ (Γ : REnv) (rv : ResolverVal) (op : String) (m : ResolverMethod),
       rv.methods.find? (fun mm => mm.name == op) = some m →
       ((m.numIn ≠ 0 →
           resolveRootResolver Γ rv op = .error (.rootMethodArgs op rv.type m.numIn)) ∧
        (m.numIn = 0 → m.outTypes.length ≠ 1 →
           resolveRootResolver Γ rv op = .error (.rootMethodReturns op rv.type m.outTypes.length)) ∧
        (∀ ot, m.numIn = 0 → m.outTypes = [ot] →
           kindOf Γ ot ≠ Kind.ptr → kindOf Γ ot ≠ Kind.interface →
           resolveRootResolver Γ rv op = .error (.rootMethodReturnKind op rv.type ot)) ∧
        (∀ ot, m.numIn = 0 → m.outTypes = [ot] →
           (kindOf Γ ot = Kind.ptr ∨ kindOf Γ ot = Kind.interface) → m.callNil = true →
           resolveRootResolver Γ rv op = .error (.rootMethodNilResult op rv.type)))) ∧
    (∀ (Γ : REnv) (rv : ResolverVal) (op : String),
       rv.methods.find? (fun mm => mm.name == op) = none →
       resolveRootResolver Γ rv op = .ok .base) ∧
    (∀ (Γ : REnv) (fuel : Nat) (s : GSchema) (rv : ResolverVal) (vis : List DirVisitor) (u : Bool) (e : Err),
       (resolveRootResolver Γ rv Query = .error e ∨ resolveRootResolver Γ rv Mutation = .error e ∨
        resolveRootResolver Γ rv Subscription = .error e) →
       ∃ e', ApplyResolver Γ fuel s (some rv) vis u = .error e') ∧
    (∀ (Γ : REnv) (fuel : Nat) (s : GSchema) (rv : ResolverVal) (vis : List DirVisitor) (u : Bool)
       (ds : List (String × DirVisitor)) (q1 m1 s1 : Option Nat) (st1 st2 st3 : BState),
       rv.methods.find? (fun mm => mm.name == Query) = none →
       rv.methods.find? (fun mm => mm.name == Mutation) = none →
       rv.methods.find? (fun mm => mm.name == Subscription) = none →
       applyDirectives s vis = .ok ds →
       bindRootOp { schema := s, renv := Γ, directives := ds, useFieldResolvers := u } fuel {} "query" rv.type
         = .ok (q1, st1) →
       bindRootOp { schema := s, renv := Γ, directives := ds, useFieldResolvers := u } fuel st1 "mutation" rv.type
         = .ok (m1, st2) →
       bindRootOp { schema := s, renv := Γ, directives := ds, useFieldResolvers := u } fuel st2 "subscription" rv.type
         = .ok (s1, st3) →
       ApplyResolver Γ fuel s (some rv) vis u = .ok
         { schema := s,
           query := q1.bind (slotVal (finishAssignments st3)),
           mutation := m1.bind (slotVal (finishAssignments st3)),
           subscription := s1.bind (slotVal (finishAssignments st3)),
           queryResolver := some .base,
           mutationResolver := some .base,
           subscriptionResolver := some .base,
           nodes := st3.nodes,
           slots := finishAssignments st3 }) := by
  refine ⟨?_, ?_, ?_, ?_⟩
  · intro Γ rv op m hfind
    exact ⟨resolveRoot_err_args Γ rv op m hfind,
           resolveRoot_err_returns Γ rv op m hfind,
           fun ot => resolveRoot_err_kind Γ rv op m ot hfind,
           fun ot => resolveRoot_err_nil Γ rv op m ot hfind⟩
  · exact resolveRoot_base
  · exact applyResolver_error_of_role_error
  · intro Γ fuel s rv vis u ds q1 m1 s1 st1 st2 st3 hq hm hs had hb1 hb2 hb3
    simp only [ApplyResolver, had, resolveRoot_base Γ rv Query hq, resolveRoot_base Γ rv Mutation hm,
      resolveRoot_base Γ rv Subscription hs, RootRes.typeOf, hb1, hb2, hb3, finish, packerFinish]

end GraphQLGo

namespace GraphQLGo

def c6schema : GSchema := { types := [("M", .object [])], rootOperationTypes := [("mutation", "M")] }

def c6renv : REnv := [("R", { kind := .struct })]

def c6bstate : BState :=
  { resMap := [((SType.namedRef "M", RType.ptr (RType.named "R")), { exec := some 0, targets := [0] })],
    nodes := #[Resolvable.object "M" [] []],
    nextSlot := 1 }

/-- C6 witness: a zero-argument `Mutation` method returning a nil pointer
fails with the non-nil-result error; omitting it and supplying a schema with
a mutation root uses the base resolver and succeeds. -/
theorem C6_witness :
    resolveRootResolver []
        { type := RType.ptr (RType.named "R"),
          methods := [{ name := "Mutation", numIn := 0,
                        outTypes := [RType.ptr (RType.named "MR")], callNil := true }] }
        Mutation
      = .error (.rootMethodNilResult Mutation (RType.ptr (RType.named "R"))) ∧
    ApplyResolver c6renv 5 c6schema (some { type := RType.ptr (RType.named "R") }) [] false
      = .ok { schema := c6schema,
              query := none,
              mutation := (some 0).bind (slotVal (finishAssignments c6bstate)),
              subscription := none,
              queryResolver := some .base,
              mutationResolver := some .base,
              subscriptionResolver := some .base,
              nodes := c6bstate.nodes,
              slots := finishAssignments c6bstate } := by
  constructor
  · exact (C6_root_resolver_contract.1 []
      { type := RType.ptr (RType.named "R"),
        methods := [{ name := "Mutation", numIn := 0,
                      outTypes := [RType.ptr (RType.named "MR")], callNil := true }] }
      Mutation
      { name := "Mutation", numIn := 0, outTypes := [RType.ptr (RType.named "MR")], callNil := true }
      rfl).2.2.2 (RType.ptr (RType.named "MR")) rfl rfl (Or.inl rfl) rfl
  · have h := C6_root_resolver_contract.2.2.2 c6renv 5 c6schema
      { type := RType.ptr (RType.named "R") } [] false [] none (some 0) none {} c6bstate c6bstate
      rfl rfl rfl rfl rfl rfl rfl
    simpa using h

end GraphQLGo

namespace GraphQLGo

/-- C8: the role-named methods are probed and shape-validated for all three
roles before the schema's declared root operations are consulted — a
malformed role method fails `ApplyResolver` even when the schema declares no
root operation for that role. -/
theorem C8_role_methods_validated_without_declared_root :
    ∀ (Γ : REnv) (fuel : Nat) (s : GSchema) (rv : ResolverVal) (vis : List DirVisitor) (u : Bool)
      (op opKey : String) (m : ResolverMethod),
      (op, opKey) ∈ [(Query, "query"), (Mutation, "mutation"), (Subscription, "subscription")] →
      s.lookupRoot opKey = none →
      rv.methods.find? (fun mm => mm.name == op) = some m →
      (m.numIn ≠ 0 ∨
       (m.numIn = 0 ∧ m.outTypes.length ≠ 1) ∨
       (∃ ot, m.numIn = 0 ∧ m.outTypes = [ot] ∧ kindOf Γ ot ≠ Kind.ptr ∧ kindOf Γ ot ≠ Kind.interface) ∨
       (∃ ot, m.numIn = 0 ∧ m.outTypes = [ot] ∧ (kindOf Γ ot = Kind.ptr ∨ kindOf Γ ot = Kind.interface) ∧
          m.callNil = true)) →
      ∃ e', ApplyResolver Γ fuel s (some rv) vis u = .error e' := by
  intro Γ fuel s rv vis u op opKey m hop hroot hfind hmal
  have herr : ∃ e0, resolveRootResolver Γ rv op = .error e0 := by
    rcases hmal with h | ⟨h0, h⟩ | ⟨ot, h0, ho, hk1, hk2⟩ | ⟨ot, h0, ho, hk, hn⟩
    · exact ⟨_, resolveRoot_err_args Γ rv op m hfind h⟩
    · exact ⟨_, resolveRoot_err_returns Γ rv op m hfind h0 h⟩
    · exact ⟨_, resolveRoot_err_kind Γ rv op m ot hfind h0 ho hk1 hk2⟩
    · exact ⟨_, resolveRoot_err_nil Γ rv op m ot hfind h0 ho hk hn⟩
  obtain ⟨e0, he0⟩ := herr
  apply applyResolver_error_of_role_error Γ fuel s rv vis u e0
  have hop' : op = Query ∨ op = Mutation ∨ op = Subscription := by
    simp only [List.mem_cons, List.mem_singleton, Prod.mk.injEq, List.not_mem_nil, or_false] at hop
    rcases hop with ⟨h1, _⟩ | ⟨h1, _⟩ | ⟨h1, _⟩
    · exact Or.inl h1
    · exact Or.inr (Or.inl h1)
    · exact Or.inr (Or.inr h1)
  rcases hop' with h | h | h
  · exact Or.inl (h ▸ he0)
  · exact Or.inr (Or.inl (h ▸ he0))
  · exact Or.inr (Or.inr (h ▸ he0))

/-- C8 witness: a resolver with a `Subscription` method taking an argument
fails `ApplyResolver` although the schema declares no subscription root. -/
theorem C8_witness :
    (ApplyResolver [] 1 { types := [("Q", .object [])], rootOperationTypes := [("query", "Q")] }
        (some { type := RType.ptr (RType.named "R"),
                methods := [{ name := "Subscription", numIn := 1 }] }) [] false).isOk = false := by
  obtain ⟨e', he'⟩ := C8_role_methods_validated_without_declared_root [] 1
    { types := [("Q", .object [])], rootOperationTypes := [("query", "Q")] }
    { type := RType.ptr (RType.named "R"), methods := [{ name := "Subscription", numIn := 1 }] }
    [] false Subscription "subscription" { name := "Subscription", numIn := 1 }
    (by decide) rfl rfl (Or.inl (by decide))
  rw [he']
  rfl

end GraphQLGo

namespace GraphQLGo

theorem lookupVisitor_eq_none (ds : List (String × DirVisitor)) (n : String) :
    lookupVisitor ds n = none ↔ n ∉ ds.map Prod.fst := by
  simp only [lookupVisitor, Option.map_eq_none', List.find?_eq_none, List.mem_map]
  constructor
  · rintro h ⟨p, hp, rfl⟩
    simpa using h p hp
  · intro h p hp
    simp only [beq_iff_eq]
    intro hc
    exact h ⟨p, hp, hc⟩

theorem visitorLoop_dup (vs : List DirVisitor) :
    ∀ (byName : List (String × DirVisitor)),
      (byName.map Prod.fst).Nodup →
      ¬ ((byName.map Prod.fst ++ vs.map DirVisitor.name).Nodup) →
      ∃ e, visitorLoop vs byName = .error e := by
  induction vs with
  | nil =>
    intro byName hnodup hdup
    simp only [List.map_nil, List.append_nil] at hdup
    exact absurd hnodup hdup
  | cons v rest ih =>
    intro byName hnodup hdup
    simp only [visitorLoop]
    cases hl : lookupVisitor byName v.name with
    | some w => exact ⟨_, rfl⟩
    | none =>
      by_cases hi : v.isResolverInterceptor
      · simp only [hi, Bool.not_true, Bool.false_eq_true, if_false]
        apply ih (byName ++ [(v.name, v)])
        · have hnot : v.name ∉ byName.map Prod.fst := (lookupVisitor_eq_none _ _).mp hl
          simp only [List.map_append, List.map_cons, List.map_nil]
          exact List.Nodup.append hnodup (by simp) (by
            intro a ha hb
            simp only [List.mem_singleton] at hb
            exact hnot (hb ▸ ha))
        · intro hcon
          apply hdup
          have : byName.map Prod.fst ++ (v :: rest).map DirVisitor.name
              = ((byName ++ [(v.name, v)]).map Prod.fst) ++ rest.map DirVisitor.name := by
            simp
          rw [this]
          exact hcon
      · simp only [hi, Bool.not_false, if_true]
        exact ⟨_, rfl⟩

theorem visitorLoop_invalid (v : DirVisitor) (vs : List DirVisitor) :
    ∀ (byName : List (String × DirVisitor)),
      v ∈ vs → v.isResolverInterceptor = false →
      ∃ e, visitorLoop vs byName = .error e := by
  induction vs with
  | nil => intro byName hmem; cases hmem
  | cons w rest ih =>
    intro byName hmem hbad
    simp only [visitorLoop]
    cases hl : lookupVisitor byName w.name with
    | some x => exact ⟨_, rfl⟩
    | none =>
      by_cases hi : w.isResolverInterceptor
      · rcases List.mem_cons.mp hmem with rfl | hmem'
        · rw [hbad] at hi; cases hi
        · simp only [hi, Bool.not_true, Bool.false_eq_true, if_false]
          exact ih _ hmem' hbad
      · simp only [Bool.not_eq_true] at hi
        simp only [hi, Bool.not_false, if_true]
        exact ⟨_, rfl⟩

theorem visitorLoop_ok_names (vs : List DirVisitor) :
    ∀ (byName ds : List (String × DirVisitor)),
      visitorLoop vs byName = .ok ds →
      ds.map Prod.fst = byName.map Prod.fst ++ vs.map DirVisitor.name := by
  induction vs with
  | nil =>
    intro byName ds h
    simp only [visitorLoop] at h
    cases h
    simp
  | cons v rest ih =>
    intro byName ds h
    simp only [visitorLoop] at h
    cases hl : lookupVisitor byName v.name with
    | some w => rw [hl] at h; cases h
    | none =>
      rw [hl] at h
      by_cases hi : v.isResolverInterceptor
      · simp only [hi, Bool.not_true, Bool.false_eq_true, if_false] at h
        have := ih _ _ h
        simpa using this
      · simp only [Bool.not_eq_true] at hi
        simp only [hi, Bool.not_false, if_true] at h
        cases h

theorem visitorLoop_ok (vs : List DirVisitor) :
    ∀ (byName : List (String × DirVisitor)),
      (byName.map Prod.fst ++ vs.map DirVisitor.name).Nodup →
      (∀ v ∈ vs, v.isResolverInterceptor = true) →
      ∃ ds, visitorLoop vs byName = .ok ds := by
  induction vs with
  | nil => intro byName _ _; exact ⟨byName, rfl⟩
  | cons v rest ih =>
    intro byName hnodup hall
    simp only [visitorLoop]
    have hnot : v.name ∉ byName.map Prod.fst := by
      intro hmem
      have := (List.nodup_append.mp hnodup).2.2
      exact this hmem (by simp)
    rw [(lookupVisitor_eq_none _ _).mpr hnot]
    rw [hall v (by simp)]
    simp only [Bool.not_true, Bool.false_eq_true, if_false]
    apply ih
    · have : (byName ++ [(v.name, v)]).map Prod.fst ++ rest.map DirVisitor.name
          = byName.map Prod.fst ++ (v :: rest).map DirVisitor.name := by simp
      rw [this]
      exact hnodup
    · intro w hw
      exact hall w (by simp [hw])

end GraphQLGo

namespace GraphQLGo

theorem schemaDirLoop_missing (byName : List (String × DirVisitor)) (dirs : List (String × DirectiveDef))
    (name : String) (dd : DirectiveDef)
    (hmem : (name, dd) ∈ dirs)
    (hloc : "FIELD_DEFINITION" ∈ dd.locations)
    (h1 : name ≠ "include") (h2 : name ≠ "skip") (h3 : name ≠ "deprecated") (h4 : name ≠ "specifiedBy")
    (hnone : lookupVisitor byName name = none) :
    ∃ e, schemaDirLoop byName dirs = .error e := by
  induction dirs with
  | nil => cases hmem
  | cons p rest ih =>
    obtain ⟨n0, d0⟩ := p
    simp only [schemaDirLoop]
    by_cases hacc : d0.locations.contains "FIELD_DEFINITION"
    · simp only [hacc, Bool.not_true, Bool.false_eq_true, if_false]
      cases hl : lookupVisitor byName n0 with
      | some w =>
        rcases List.mem_cons.mp hmem with heq | hmem'
        · obtain ⟨rfl, rfl⟩ := Prod.mk.inj heq
          rw [hnone] at hl
          cases hl
        · exact ih hmem'
      | none =>
        by_cases hb : n0 = "include" ∨ n0 = "skip" ∨ n0 = "deprecated" ∨ n0 = "specifiedBy"
        · have hbc : (n0 == "include" || n0 == "skip" || n0 == "deprecated" || n0 == "specifiedBy") = true := by
            rcases hb with h | h | h | h <;> simp [h]
          simp only [hbc, if_true]
          rcases List.mem_cons.mp hmem with heq | hmem'
          · obtain ⟨rfl, rfl⟩ := Prod.mk.inj heq
            rcases hb with h | h | h | h
            · exact absurd h h1
            · exact absurd h h2
            · exact absurd h h3
            · exact absurd h h4
          · exact ih hmem'
        · have hbc : (n0 == "include" || n0 == "skip" || n0 == "deprecated" || n0 == "specifiedBy") = false := by
            push_neg at hb
            simp [hb.1, hb.2.1, hb.2.2.1, hb.2.2.2]
          simp only [hbc, Bool.false_eq_true, if_false]
          exact ⟨_, rfl⟩
    · simp only [Bool.not_eq_true] at hacc
      rcases List.mem_cons.mp hmem with heq | hmem'
      · obtain ⟨rfl, rfl⟩ := Prod.mk.inj heq
        have : dd.locations.contains "FIELD_DEFINITION" = true := List.elem_eq_true_of_mem hloc
        rw [this] at hacc
        cases hacc
      · simp only [hacc, Bool.not_false, if_true]
        exact ih hmem'

theorem schemaDirLoop_ok (byName : List (String × DirVisitor)) (dirs : List (String × DirectiveDef))
    (h : ∀ name dd, (name, dd) ∈ dirs → "FIELD_DEFINITION" ∈ dd.locations →
         (lookupVisitor byName name).isSome = true ∨
         name = "include" ∨ name = "skip" ∨ name = "deprecated" ∨ name = "specifiedBy") :
    schemaDirLoop byName dirs = .ok () := by
  induction dirs with
  | nil => rfl
  | cons p rest ih =>
    obtain ⟨n0, d0⟩ := p
    simp only [schemaDirLoop]
    by_cases hacc : d0.locations.contains "FIELD_DEFINITION"
    · simp only [hacc, Bool.not_true, Bool.false_eq_true, if_false]
      cases hl : lookupVisitor byName n0 with
      | some w => exact ih (fun name dd hm hloc => h name dd (by simp [hm]) hloc)
      | none =>
        have := h n0 d0 (by simp) (by simpa using hacc)
        rw [hl] at this
        rcases this with hcon | hb | hb | hb | hb
        · cases hcon
        all_goals
          simp only [hb]
          simp only [show (("include" : String) == "include") = true from rfl,
            show (("skip" : String) == "skip") = true from rfl,
            show (("deprecated" : String) == "deprecated") = true from rfl,
            show (("specifiedBy" : String) == "specifiedBy") = true from rfl,
            Bool.or_true, Bool.true_or, if_true]
          exact ih (fun name dd hm hloc => h name dd (by simp [hm]) hloc)
    · simp only [Bool.not_eq_true] at hacc
      simp only [hacc, Bool.not_false, if_true]
      exact ih (fun name dd hm hloc => h name dd (by simp [hm]) hloc)

end GraphQLGo

namespace GraphQLGo

/-- C7: directive validation fails on duplicate implementations for one
name, fails on an implementation with no recognized visitor capability, and
fails for every schema directive whose locations include FIELD_DEFINITION
without a registered implementation unless named include/skip/deprecated/
specifiedBy; directives without FIELD_DEFINITION never require an
implementation (the success case constrains only FIELD_DEFINITION ones). -/
theorem C7_directive_validation :
    (∀ (s : GSchema) (vis : List DirVisitor),
       ¬ (vis.map DirVisitor.name).Nodup →
       ∃ e, applyDirectives s vis = .error e) ∧
    (∀ (s : GSchema) (vis : List DirVisitor) (v : DirVisitor),
       v ∈ vis → v.isResolverInterceptor = false →
       ∃ e, applyDirectives s vis = .error e) ∧
    (∀ (s : GSchema) (vis : List DirVisitor) (name : String) (dd : DirectiveDef),
       (name, dd) ∈ s.directives → "FIELD_DEFINITION" ∈ dd.locations →
       name ≠ "include" → name ≠ "skip" → name ≠ "deprecated" → name ≠ "specifiedBy" →
       (∀ v ∈ vis, v.name ≠ name) →
       ∃ e, applyDirectives s vis = .error e) ∧
    (∀ (s : GSchema) (vis : List DirVisitor),
       (vis.map DirVisitor.name).Nodup →
       (∀ v ∈ vis, v.isResolverInterceptor = true) →
       (∀ name dd, (name, dd) ∈ s.directives → "FIELD_DEFINITION" ∈ dd.locations →
          name ∈ vis.map DirVisitor.name ∨
          name = "include" ∨ name = "skip" ∨ name = "deprecated" ∨ name = "specifiedBy") →
       ∃ ds, applyDirectives s vis = .ok ds) := by
  refine ⟨?_, ?_, ?_, ?_⟩
  · intro s vis hdup
    obtain ⟨e, he⟩ := visitorLoop_dup vis [] (by simp) (by simpa using hdup)
    exact ⟨e, by simp only [applyDirectives, he]⟩
  · intro s vis v hmem hbad
    obtain ⟨e, he⟩ := visitorLoop_invalid v vis [] hmem hbad
    exact ⟨e, by simp only [applyDirectives, he]⟩
  · intro s vis name dd hmem hloc h1 h2 h3 h4 hnoimpl
    simp only [applyDirectives]
    cases hv : visitorLoop vis [] with
    | error e => exact ⟨e, rfl⟩
    | ok ds =>
      have hnames := visitorLoop_ok_names vis [] ds hv
      have hnot : name ∉ ds.map Prod.fst := by
        rw [hnames]
        simp only [List.map_nil, List.nil_append, List.mem_map]
        rintro ⟨v, hvmem, hvname⟩
        exact hnoimpl v hvmem hvname
      obtain ⟨e, he⟩ := schemaDirLoop_missing ds s.directives name dd hmem hloc h1 h2 h3 h4
        ((lookupVisitor_eq_none _ _).mpr hnot)
      exact ⟨e, by simp only [he]⟩
  · intro s vis hnodup hall hreq
    simp only [applyDirectives]
    obtain ⟨ds, hds⟩ := visitorLoop_ok vis [] (by simpa using hnodup) hall
    have hnames := visitorLoop_ok_names vis [] ds hds
    have hsd : schemaDirLoop ds s.directives = .ok () := by
      apply schemaDirLoop_ok
      intro name dd hmem hloc
      rcases hreq name dd hmem hloc with hin | hb | hb | hb | hb
      · left
        have : name ∈ ds.map Prod.fst := by rw [hnames]; simpa using hin
        rcases hl : lookupVisitor ds name with _ | w
        · exact absurd ((lookupVisitor_eq_none _ _).mp hl) (by simpa using this)
        · simp
      all_goals simp [hb]
    exact ⟨ds, by simp only [hds, hsd]⟩

/-- C7 witness: duplicate implementations fail; a capability-less visitor
fails; an unimplemented FIELD_DEFINITION directive fails naming it;
built-ins and non-FIELD_DEFINITION directives pass without implementations. -/
theorem C7_witness :
    (applyDirectives {} [{ name := "d", isResolverInterceptor := true, rtype := RType.named "V" },
                         { name := "d", isResolverInterceptor := true, rtype := RType.named "W" }]).isOk = false ∧
    (applyDirectives {} [{ name := "d", isResolverInterceptor := false, rtype := RType.named "V" }]).isOk = false ∧
    (applyDirectives { directives := [("custom", { locations := ["FIELD_DEFINITION"] })] } []).isOk = false ∧
    (applyDirectives { directives := [("deprecated", { locations := ["FIELD_DEFINITION"] }),
                                      ("other", { locations := ["QUERY"] })] } []).isOk = true := by
  refine ⟨?_, ?_, ?_, ?_⟩
  · obtain ⟨e, he⟩ := C7_directive_validation.1 {}
      [{ name := "d", isResolverInterceptor := true, rtype := RType.named "V" },
       { name := "d", isResolverInterceptor := true, rtype := RType.named "W" }] (by decide)
    rw [he]; rfl
  · obtain ⟨e, he⟩ := C7_directive_validation.2.1 {}
      [{ name := "d", isResolverInterceptor := false, rtype := RType.named "V" }]
      { name := "d", isResolverInterceptor := false, rtype := RType.named "V" }
      (by decide) rfl
    rw [he]; rfl
  · obtain ⟨e, he⟩ := C7_directive_validation.2.2.1
      { directives := [("custom", { locations := ["FIELD_DEFINITION"] })] } []
      "custom" { locations := ["FIELD_DEFINITION"] } (by decide) (by decide)
      (by decide) (by decide) (by decide) (by decide) (by intro v hv; cases hv)
    rw [he]; rfl
  · obtain ⟨ds, hds⟩ := C7_directive_validation.2.2.2
      { directives := [("deprecated", { locations := ["FIELD_DEFINITION"] }),
                       ("other", { locations := ["QUERY"] })] } []
      (by decide) (by intro v hv; cases hv)
      (by
        intro name dd hmem hloc
        simp only [List.mem_cons, List.mem_singleton, Prod.mk.injEq, List.not_mem_nil, or_false] at hmem
        rcases hmem with ⟨rfl, rfl⟩ | ⟨rfl, rfl⟩
        · simp
        · simp at hloc)
    rw [hds]; rfl

end GraphQLGo

namespace GraphQLGo

/-! ### Termination of the memoized builder (claim C1)

`childPairs` computes, purely, a superset of the (schema type, resolver
type) pairs that `makeExec` can pass to `assignExec` in one step from a
given pair; it mirrors the `out`-type expressions of the builder exactly. -/

def fieldOutType (ctx : Ctx) (typeName : String) (resolverType rt : RType) (f : FieldDef) : RType :=
  let methodIndex := findMethod ctx.renv resolverType f.name
  if methodIndex != -1 then
    subAdjust ctx typeName
      (((methodAt ctx.renv resolverType methodIndex.toNat).getD zeroMethod).outTypes.headD (RType.named ""))
  else
    ((fieldByIndex ctx.renv rt
        (if ctx.useFieldResolvers then findField ctx.renv rt f.name [] else [])).getD zeroField).type

def assertPairOf (ctx : Ctx) (resolverType : RType) (implName : String) : Option TypePair :=
  let methodIndex := findMethod ctx.renv resolverType ("To" ++ implName)
  if methodIndex != -1 then
    some (SType.namedRef implName,
      ((methodAt ctx.renv resolverType methodIndex.toNat).getD zeroMethod).outTypes.headD (RType.named ""))
  else none

def childPairs (ctx : Ctx) (p : TypePair) : List TypePair :=
  let u := unwrapNonNull p.1
  match objectish ctx.schema u.1 with
  | some ob =>
    ob.2.1.map (fun f => (f.type, fieldOutType ctx ob.1 p.2 (unwrapPtr p.2) f)) ++
      ob.2.2.filterMap (assertPairOf ctx p.2)
  | none =>
    match (if u.2 then some p.2 else (match p.2 with | .ptr e => some e | _ => none)) with
    | none => []
    | some resolverType =>
      match u.1 with
      | .list ofType =>
        match resolverType with
        | .slice elemT => [(ofType, elemT)]
        | _ => []
      | _ => []

/-- The per-pair loop widths (declared fields plus possible concrete
types), used to bound the fuel a single memoization level consumes. -/
def pairWidth (ctx : Ctx) (p : TypePair) : Nat :=
  match objectish ctx.schema (unwrapNonNull p.1).1 with
  | some ob => ob.2.1.length + ob.2.2.length
  | none => 0

def keysOf (st : BState) : Finset TypePair := (st.resMap.map Prod.fst).toFinset

def pairGap (S : Finset TypePair) (st : BState) : Nat := (S \ keysOf st).card

/-- `S` is closed under one-step child pairs of the builder. -/
def ClosedPairs (ctx : Ctx) (S : Finset TypePair) : Prop :=
  ∀ p ∈ S, ∀ q ∈ childPairs ctx p, q ∈ S

theorem keysOf_allocSlot (st : BState) : keysOf st.allocSlot.2 = keysOf st := rfl

theorem keysOf_addTarget (st : BState) (k : TypePair) (s : Nat) :
    keysOf (st.addTarget k s) = keysOf st := by
  unfold keysOf BState.addTarget
  congr 1
  simp only [List.map_map]
  apply List.map_congr_left
  intro p _
  simp only [Function.comp_apply]
  split <;> rfl

theorem keysOf_setExec (st : BState) (k : TypePair) (nid : Nat) :
    keysOf (st.setExec k nid) = keysOf st := by
  unfold keysOf BState.setExec
  congr 1
  simp only [List.map_map]
  apply List.map_congr_left
  intro p _
  simp only [Function.comp_apply]
  split <;> rfl

theorem keysOf_pushNode (st : BState) (n : Resolvable) : keysOf (st.pushNode n).2 = keysOf st := rfl

theorem keysOf_insertPair (st : BState) (k : TypePair) :
    keysOf (st.insertPair k) = insert k (keysOf st) := by
  unfold keysOf BState.insertPair
  simp only [List.map_append, List.map_cons, List.map_nil, List.toFinset_append]
  rw [show ([k] : List TypePair).toFinset = {k} by simp, Finset.union_comm, Finset.insert_eq]

theorem lookupPair_none_iff (st : BState) (k : TypePair) :
    st.lookupPair k = none ↔ k ∉ keysOf st := by
  unfold BState.lookupPair keysOf
  simp only [Option.map_eq_none', List.find?_eq_none, List.mem_toFinset, List.mem_map]
  constructor
  · rintro h ⟨p, hp, rfl⟩
    simpa using h p hp
  · intro h p hp
    simp only [beq_iff_eq]
    intro hc
    exact h ⟨p, hp, hc⟩

theorem pairGap_le_of_subset (S : Finset TypePair) (st st' : BState)
    (h : keysOf st ⊆ keysOf st') : pairGap S st' ≤ pairGap S st :=
  Finset.card_le_card (fun x hx => by
    simp only [Finset.mem_sdiff] at hx ⊢
    exact ⟨hx.1, fun hc => hx.2 (h hc)⟩)

theorem pairGap_insert_lt (S : Finset TypePair) (st : BState) (k : TypePair)
    (hk : k ∈ S) (hnot : k ∉ keysOf st) :
    pairGap S (st.insertPair k) + 1 ≤ pairGap S st := by
  unfold pairGap
  rw [keysOf_insertPair]
  have h1 : S \ insert k (keysOf st) = (S \ keysOf st).erase k := by
    ext x
    simp only [Finset.mem_sdiff, Finset.mem_insert, Finset.mem_erase, not_or]
    tauto
  rw [h1]
  have h2 : k ∈ S \ keysOf st := Finset.mem_sdiff.mpr ⟨hk, hnot⟩
  have h3 := Finset.card_erase_of_mem h2
  have h4 : 0 < (S \ keysOf st).card := Finset.card_pos.mpr ⟨k, h2⟩
  omega

end GraphQLGo

namespace GraphQLGo

/-- The two facts the fuel-sufficiency induction tracks about a builder
result: it is not a fuel-exhaustion error, and on success the memo keys only
grow, staying inside `S`. -/
def NoFuelErr {α : Type} (S : Finset TypePair) (st : BState) (r : Except Err (α × BState)) : Prop :=
  (∀ e, r = .error e → e ≠ .outOfFuel) ∧
  (∀ a st', r = .ok (a, st') → keysOf st ⊆ keysOf st' ∧ keysOf st' ⊆ S)

theorem makeDirectivePackers_not_outOfFuel (ctx : Ctx) (fname : String) :
    ∀ (ds : List String) (acc : List (String × StructPacker)) (e : Err),
      makeDirectivePackers ctx fname ds acc = .error e → e ≠ .outOfFuel := by
  intro ds
  induction ds with
  | nil => intro acc e h; cases h
  | cons n rest ih =>
    intro acc e h
    simp only [makeDirectivePackers] at h
    by_cases hdep : (n == "deprecated") = true
    · rw [if_pos hdep] at h
      exact ih _ _ h
    · rw [if_neg hdep] at h
      cases hl : lookupVisitor ctx.directives n with
      | none => rw [hl] at h; cases h; simp
      | some v =>
        rw [hl] at h
        by_cases hi : v.isResolverInterceptor
        · simp only [hi, Bool.not_true, Bool.false_eq_true, if_false] at h
          cases hd : ctx.schema.lookupDirective n with
          | none => rw [hd] at h; cases h; simp
          | some dd =>
            rw [hd] at h
            simp only [makeStructPacker] at h
            exact ih _ _ h
        · simp only [Bool.not_eq_true] at hi
          simp only [hi, Bool.not_false, if_true] at h
          exact ih _ _ h

theorem NoFuelErr_error {α : Type} (S : Finset TypePair) (st : BState) (e0 : Err)
    (h : e0 ≠ .outOfFuel) : NoFuelErr S st (Except.error e0 : Except Err (α × BState)) :=
  ⟨fun e he => (by cases he; exact h), fun a st' he => (by cases he)⟩

theorem NoFuelErr_ok {α : Type} (S : Finset TypePair) (st : BState) (a : α) (st' : BState)
    (h1 : keysOf st ⊆ keysOf st') (h2 : keysOf st' ⊆ S) :
    NoFuelErr S st (Except.ok (a, st') : Except Err (α × BState)) :=
  ⟨fun e he => (by cases he), fun b st'' he => (by cases he; exact ⟨h1, h2⟩)⟩

theorem NoFuelErr_mono {α : Type} (S : Finset TypePair) (st st' : BState)
    (r : Except Err (α × BState)) (h : keysOf st ⊆ keysOf st')
    (hr : NoFuelErr S st' r) : NoFuelErr S st r :=
  ⟨hr.1, fun a st'' he =>
    ⟨Finset.Subset.trans h (hr.2 a st'' he).1, (hr.2 a st'' he).2⟩⟩

theorem makeScalarExec_not_outOfFuel (Γ : REnv) (nm : String) (rt : RType) (e : Err)
    (h : makeScalarExec Γ nm rt = .error e) : e ≠ .outOfFuel := by
  simp only [makeScalarExec] at h
  split at h
  · cases h
  · cases h
    simp

/-- The `validated` step of `makeFieldExec`, named for analysis: the
signature checks performed before any recursive binding. -/
def fieldValidated (f : FieldDef) (m : Option RMethod) (methodIndex : Int) : Except Err (Bool × Bool × Option StructPacker) :=
  if methodIndex != -1 then
    let mm := m.getD zeroMethod
    let dc := dropContext mm.inTypes
    let hasContext := dc.1
    let inL := dc.2
    let argsStep : Except Err (Option StructPacker × List RType) :=
      if f.args.length > 0 then
        match inL with
        | [] => .error .missingArgsStruct
        | a :: restIn =>
          match makeStructPacker f.args a with
          | .error e => .error e
          | .ok p => .ok (some p, restIn)
      else .ok (none, inL)
    match argsStep with
    | .error e => .error e
    | .ok (argsPacker, inL) =>
      if inL.length > 0 then .error .tooManyArgs
      else if mm.outTypes.length < 1 then .error .tooFewReturnValues
      else if mm.outTypes.length > 2 then .error .tooManyReturnValues
      else
        let hasError := mm.outTypes.length == 2
        if hasError && mm.outTypes.getD 1 (RType.named "") != errorType then
          .error .lastReturnMustBeError
        else .ok (hasContext, hasError, argsPacker)
  else .ok (false, false, none)

/-- The bound result type of `makeFieldExec`, named for analysis. -/
def fieldOut (ctx : Ctx) (typeName : String) (m : Option RMethod) (sf : Option RField) (methodIndex : Int) : RType :=
  if methodIndex != -1 then
    subAdjust ctx typeName ((m.getD zeroMethod).outTypes.headD (RType.named ""))
  else (sf.getD zeroField).type

theorem makeFieldExec_succ (ctx : Ctx) (n : Nat) (st : BState) (typeName : String)
    (f : FieldDef) (m : Option RMethod) (sf : Option RField) (methodIndex : Int)
    (fieldIndex : List Nat) (mhr : Bool) :
    makeFieldExec ctx (n + 1) st typeName f m sf methodIndex fieldIndex mhr =
      match fieldValidated f m methodIndex with
      | .error e => .error e
      | .ok (hasContext, hasError, argsPacker) =>
        match makeDirectivePackers ctx f.name f.directives [] with
        | .error e => .error e
        | .ok directivesPackers =>
          match assignExec ctx n st f.type (fieldOut ctx typeName m sf methodIndex) with
          | .error e => .error e
          | .ok (slot, st2) =>
            .ok ({ fieldDef := f, typeName := typeName, methodIndex := methodIndex,
                   fieldIndex := fieldIndex, hasContext := hasContext, hasError := hasError,
                   argsPacker := argsPacker, directivesPackers := directivesPackers,
                   valueExec := slot,
                   traceLabel := "GraphQL field: " ++ typeName ++ "." ++ f.name }, st2) := rfl

theorem fieldValidated_not_outOfFuel (f : FieldDef) (m : Option RMethod) (methodIndex : Int)
    (e : Err) (h : fieldValidated f m methodIndex = .error e) : e ≠ .outOfFuel := by
  simp only [fieldValidated, makeStructPacker] at h
  split at h
  · split at h
    · rename_i e0 heq
      cases h
      split at heq
      · split at heq
        · cases heq
          simp
        · cases heq
      · cases heq
    · split at h
      · cases h
        simp
      · split at h
        · cases h
          simp
        · split at h
          · cases h
            simp
          · split at h
            · cases h
              simp
            · cases h
  · cases h

theorem fieldOutType_eq (ctx : Ctx) (typeName : String) (resolverType rt : RType) (f : FieldDef) :
    (if ((findMethod ctx.renv resolverType f.name) != -1) = true then
        subAdjust ctx typeName
          (((if ((findMethod ctx.renv resolverType f.name) == -1) = true then none
             else methodAt ctx.renv resolverType (findMethod ctx.renv resolverType f.name).toNat).getD
              zeroMethod).outTypes.headD (RType.named ""))
      else
        ((if ((findMethod ctx.renv resolverType f.name) == -1) = true then
            fieldByIndex ctx.renv rt
              (if (ctx.useFieldResolvers && ((findMethod ctx.renv resolverType f.name) == -1)) = true then
                findField ctx.renv rt f.name [] else [])
          else none).getD zeroField).type)
      = fieldOutType ctx typeName resolverType rt f := by
  by_cases h : ((findMethod ctx.renv resolverType f.name) == -1) = true <;>
    simp [fieldOutType, bne, h]

/-- Fuel sufficiency for the memoized builder: over any finite set `S` of
pairs closed under `childPairs` and with loop widths bounded by `B`, a fuel
of `pairGap·B + O(1)` never produces the fuel-exhaustion artifact, and the
memo keys grow monotonically inside `S`. -/
theorem builder_fuel (ctx : Ctx) (S : Finset TypePair) (B : Nat)
    (hclosed : ClosedPairs ctx S) (hB : ∀ p ∈ S, pairWidth ctx p + 5 ≤ B) :
    ∀ fuel : Nat,
      (∀ st t rt, keysOf st ⊆ S → (t, rt) ∈ S →
        pairGap S st * B + 1 ≤ fuel →
        NoFuelErr S st (assignExec ctx fuel st t rt)) ∧
      (∀ st t0 rt, keysOf st ⊆ S →
        (∀ q ∈ childPairs ctx (t0, rt), q ∈ S) →
        pairGap S st * B + pairWidth ctx (t0, rt) + 5 ≤ fuel →
        NoFuelErr S st (makeExec ctx fuel st t0 rt)) ∧
      (∀ st typeName fields possibleTypes nonNull rt, keysOf st ⊆ S →
        (∀ f ∈ fields, (f.type, fieldOutType ctx typeName rt (unwrapPtr rt) f) ∈ S) →
        (∀ i ∈ possibleTypes, ∀ q, assertPairOf ctx rt i = some q → q ∈ S) →
        pairGap S st * B + fields.length + possibleTypes.length + 4 ≤ fuel →
        NoFuelErr S st (makeObjectExec ctx fuel st typeName fields possibleTypes nonNull rt)) ∧
      (∀ st typeName resolverType rt fieldsCount mhr fields acc, keysOf st ⊆ S →
        (∀ f ∈ fields, (f.type, fieldOutType ctx typeName resolverType rt f) ∈ S) →
        pairGap S st * B + fields.length + 3 ≤ fuel →
        NoFuelErr S st (makeFieldsLoop ctx fuel st typeName resolverType rt fieldsCount mhr fields acc)) ∧
      (∀ st typeName f m sf methodIndex fieldIndex mhr, keysOf st ⊆ S →
        (f.type, (if (methodIndex != (-1 : Int)) = true then
            subAdjust ctx typeName ((Option.getD m zeroMethod).outTypes.headD (RType.named ""))
          else (Option.getD sf zeroField).type)) ∈ S →
        pairGap S st * B + 2 ≤ fuel →
        NoFuelErr S st (makeFieldExec ctx fuel st typeName f m sf methodIndex fieldIndex mhr)) ∧
      (∀ st typeName resolverType mhr impls acc, keysOf st ⊆ S →
        (∀ i ∈ impls, ∀ q, assertPairOf ctx resolverType i = some q → q ∈ S) →
        pairGap S st * B + impls.length + 2 ≤ fuel →
        NoFuelErr S st (makeAssertsLoop ctx fuel st typeName resolverType mhr impls acc)) := by
  intro fuel
  induction fuel with
  | zero =>
    refine ⟨?_, ?_, ?_, ?_, ?_, ?_⟩ <;> (intros; omega)
  | succ n ih =>
    obtain ⟨ihA, ihM, ihO, ihFL, ihFE, ihAL⟩ := ih
    refine ⟨?_, ?_, ?_, ?_, ?_, ?_⟩
    · -- assignExec
      intro st t rt hkeys hmem hfuel
      simp only [assignExec, BState.allocSlot, BState.lookupPair]
      cases hf : st.resMap.find? (fun p => p.1 == (t, rt)) with
      | some entry =>
        simp only [hf, Option.map_some']
        constructor
        · intro e h
          cases h
        · intro a st' h
          cases h
          rw [show keysOf (BState.addTarget { st with nextSlot := st.nextSlot + 1 } (t, rt) st.nextSlot)
              = keysOf st from keysOf_addTarget _ _ _]
          exact ⟨le_refl _, hkeys⟩
      | none =>
        simp only [hf, Option.map_none']
        have hnot : (t, rt) ∉ keysOf st := by
          rw [← lookupPair_none_iff]
          simp only [BState.lookupPair, hf, Option.map_none']
        set st2 := BState.insertPair { st with nextSlot := st.nextSlot + 1 } (t, rt) with hst2
        have hk2 : keysOf st2 = insert (t, rt) (keysOf st) := keysOf_insertPair _ _
        have hkeys2 : keysOf st2 ⊆ S := by
          rw [hk2]
          exact Finset.insert_subset_iff.mpr ⟨hmem, hkeys⟩
        have hgap2 : pairGap S st2 + 1 ≤ pairGap S st := pairGap_insert_lt S _ (t, rt) hmem hnot
        have hwB := hB (t, rt) hmem
        have hmul : pairGap S st2 * B + B ≤ pairGap S st * B := by
          have h1 := Nat.mul_le_mul_right B hgap2
          calc pairGap S st2 * B + B = (pairGap S st2 + 1) * B := by ring
            _ ≤ pairGap S st * B := h1
        have hfuelM : pairGap S st2 * B + pairWidth ctx (t, rt) + 5 ≤ n := by
          have h4 : pairGap S st * B ≤ n := Nat.le_of_succ_le_succ hfuel
          linarith
        obtain ⟨merr, mok⟩ := ihM st2 t rt hkeys2 (hclosed (t, rt) hmem) hfuelM
        cases hmk : makeExec ctx n st2 t rt with
        | error e =>
          simp only [hmk]
          constructor
          · intro e' h
            cases h
            exact merr e hmk
          · intro a st' h
            cases h
        | ok pr =>
          obtain ⟨nid, st3⟩ := pr
          simp only [hmk]
          constructor
          · intro e h
            cases h
          · intro a st' h
            cases h
            obtain ⟨h23, h3S⟩ := mok nid st3 hmk
            rw [show keysOf (BState.addTarget (BState.setExec st3 (t, rt) nid) (t, rt) st.nextSlot)
                = keysOf st3 by rw [keysOf_addTarget, keysOf_setExec]]
            constructor
            · intro x hx
              apply h23
              rw [hk2]
              exact Finset.mem_insert_of_mem hx
            · exact h3S
    · -- makeExec
      intro st t0 rt hkeys hchild hfuel
      simp only [makeExec]
      cases hob : objectish ctx.schema (unwrapNonNull t0).1 with
      | some ob =>
        obtain ⟨typeName, fields, possibleTypes⟩ := ob
        simp only [hob]
        have hw : pairWidth ctx (t0, rt) = fields.length + possibleTypes.length := by
          simp only [pairWidth, hob]
        apply ihO st typeName fields possibleTypes (unwrapNonNull t0).2 rt hkeys
        · intro f hf
          apply hchild
          simp only [childPairs, hob, List.mem_append, List.mem_map]
          exact Or.inl ⟨f, hf, rfl⟩
        · intro i hi q hq
          apply hchild
          simp only [childPairs, hob, List.mem_append, List.mem_filterMap]
          exact Or.inr ⟨i, hi, hq⟩
        · rw [hw] at hfuel
          generalize pairGap S st * B = g at hfuel ⊢
          omega
      | none =>
        simp only [hob]
        cases hnn : (unwrapNonNull t0).2 with
        | true =>
          simp only [if_true]
          cases ht : (unwrapNonNull t0).1 with
          | namedRef nm =>
            cases hlt : ctx.schema.lookupType nm with
            | none =>
              simp only [hlt]
              exact NoFuelErr_error S _ _ (by simp)
            | some td =>
              cases td with
              | scalar =>
                simp only [hlt]
                cases hsc : makeScalarExec ctx.renv nm rt with
                | error e =>
                  simp only [hsc]
                  exact NoFuelErr_error S _ _ (makeScalarExec_not_outOfFuel _ _ _ _ hsc)
                | ok node =>
                  simp only [hsc]
                  exact NoFuelErr_ok S _ _ _ (Finset.Subset.refl _) hkeys
              | enum =>
                simp only [hlt]
                exact NoFuelErr_ok S _ _ _ (Finset.Subset.refl _) hkeys
              | object fs =>
                simp only [hlt]
                exact NoFuelErr_error S _ _ (by simp)
              | interfaceT fs ps =>
                simp only [hlt]
                exact NoFuelErr_error S _ _ (by simp)
              | union ms =>
                simp only [hlt]
                exact NoFuelErr_error S _ _ (by simp)
          | list ofType =>
            cases hrt2 : rt with
            | slice elemT =>
              have hpair : (ofType, elemT) ∈ S := by
                apply hchild
                simp [childPairs, objectish, hob, hnn, ht, hrt2]
              have hfuelA : pairGap S st * B + 1 ≤ n := by
                generalize pairGap S st * B = g at hfuel ⊢
                omega
              obtain ⟨aerr, aok⟩ := ihA st ofType elemT hkeys hpair hfuelA
              cases has : assignExec ctx n st ofType elemT with
              | error e =>
                simp only [has]
                exact NoFuelErr_error S _ _ (aerr e has)
              | ok pr =>
                obtain ⟨slot, st3⟩ := pr
                simp only [has]
                obtain ⟨h13, h3S⟩ := aok slot st3 has
                exact NoFuelErr_ok S _ _ _ h13 h3S
            | int32T => exact NoFuelErr_error S _ _ (by simp)
            | float64T => exact NoFuelErr_error S _ _ (by simp)
            | stringT => exact NoFuelErr_error S _ _ (by simp)
            | boolT => exact NoFuelErr_error S _ _ (by simp)
            | named nn2 => exact NoFuelErr_error S _ _ (by simp)
            | ptr tt => exact NoFuelErr_error S _ _ (by simp)
            | chan tt => exact NoFuelErr_error S _ _ (by simp)
          | nonNull t1 =>
            exact NoFuelErr_error S _ _ (by simp)
        | false =>
          simp only [Bool.false_eq_true, if_false]
          cases hrtc : rt with
          | ptr e1 =>
            cases ht : (unwrapNonNull t0).1 with
            | namedRef nm =>
              cases hlt : ctx.schema.lookupType nm with
              | none =>
                simp only [hlt]
                exact NoFuelErr_error S _ _ (by simp)
              | some td =>
                cases td with
                | scalar =>
                  simp only [hlt]
                  cases hsc : makeScalarExec ctx.renv nm e1 with
                  | error e =>
                    simp only [hsc]
                    exact NoFuelErr_error S _ _ (makeScalarExec_not_outOfFuel _ _ _ _ hsc)
                  | ok node =>
                    simp only [hsc]
                    exact NoFuelErr_ok S _ _ _ (Finset.Subset.refl _) hkeys
                | enum =>
                  simp only [hlt]
                  exact NoFuelErr_ok S _ _ _ (Finset.Subset.refl _) hkeys
                | object fs =>
                  simp only [hlt]
                  exact NoFuelErr_error S _ _ (by simp)
                | interfaceT fs ps =>
                  simp only [hlt]
                  exact NoFuelErr_error S _ _ (by simp)
                | union ms =>
                  simp only [hlt]
                  exact NoFuelErr_error S _ _ (by simp)
            | list ofType =>
              cases hrt2 : e1 with
              | slice elemT =>
                have hpair : (ofType, elemT) ∈ S := by
                  apply hchild
                  simp [childPairs, objectish, hob, hnn, ht, hrtc, hrt2]
                have hfuelA : pairGap S st * B + 1 ≤ n := by
                  generalize pairGap S st * B = g at hfuel ⊢
                  omega
                obtain ⟨aerr, aok⟩ := ihA st ofType elemT hkeys hpair hfuelA
                cases has : assignExec ctx n st ofType elemT with
                | error e =>
                  simp only [has]
                  exact NoFuelErr_error S _ _ (aerr e has)
                | ok pr =>
                  obtain ⟨slot, st3⟩ := pr
                  simp only [has]
                  obtain ⟨h13, h3S⟩ := aok slot st3 has
                  exact NoFuelErr_ok S _ _ _ h13 h3S
              | int32T => exact NoFuelErr_error S _ _ (by simp)
              | float64T => exact NoFuelErr_error S _ _ (by simp)
              | stringT => exact NoFuelErr_error S _ _ (by simp)
              | boolT => exact NoFuelErr_error S _ _ (by simp)
              | named nn2 => exact NoFuelErr_error S _ _ (by simp)
              | ptr tt => exact NoFuelErr_error S _ _ (by simp)
              | chan tt => exact NoFuelErr_error S _ _ (by simp)
            | nonNull t1 =>
              exact NoFuelErr_error S _ _ (by simp)
          | int32T => exact NoFuelErr_error S _ _ (by simp)
          | float64T => exact NoFuelErr_error S _ _ (by simp)
          | stringT => exact NoFuelErr_error S _ _ (by simp)
          | boolT => exact NoFuelErr_error S _ _ (by simp)
          | named nn2 => exact NoFuelErr_error S _ _ (by simp)
          | slice tt => exact NoFuelErr_error S _ _ (by simp)
          | chan tt => exact NoFuelErr_error S _ _ (by simp)
    · -- makeObjectExec
      intro st typeName fields possibleTypes nonNull rt hkeys hfieldsS hassertS hfuel
      simp only [makeObjectExec]
      by_cases hnul : (!nonNull && kindOf ctx.renv rt != Kind.ptr && kindOf ctx.renv rt != Kind.interface) = true
      · rw [if_pos hnul]
        exact NoFuelErr_error S _ _ (by simp)
      · rw [if_neg hnul]
        have hfuelFL : pairGap S st * B + fields.length + 3 ≤ n := by
          generalize pairGap S st * B = g at hfuel ⊢
          omega
        obtain ⟨ferr, fok⟩ := ihFL st typeName rt (unwrapPtr rt)
          (fieldCount ctx.renv (unwrapPtr rt) []) (kindOf ctx.renv rt != Kind.interface) fields []
          hkeys hfieldsS hfuelFL
        cases hfl : makeFieldsLoop ctx n st typeName rt (unwrapPtr rt)
            (fieldCount ctx.renv (unwrapPtr rt) []) (kindOf ctx.renv rt != Kind.interface) fields [] with
        | error e =>
          simp only [hfl]
          exact NoFuelErr_error S _ _ (ferr e hfl)
        | ok pr =>
          obtain ⟨bf, st2⟩ := pr
          simp only [hfl]
          obtain ⟨h12, h2S⟩ := fok bf st2 hfl
          by_cases hcond : (!ctx.useFieldResolvers || kindOf ctx.renv rt != Kind.interface) = true
          · rw [if_pos hcond]
            have hgap2 : pairGap S st2 ≤ pairGap S st := pairGap_le_of_subset S st st2 h12
            have hmul : pairGap S st2 * B ≤ pairGap S st * B := Nat.mul_le_mul_right B hgap2
            have hfuelAL : pairGap S st2 * B + possibleTypes.length + 2 ≤ n := by
              generalize h1 : pairGap S st2 * B = g1 at hmul ⊢
              generalize h2 : pairGap S st * B = g2 at hmul hfuel ⊢
              omega
            obtain ⟨aerr, aok⟩ := ihAL st2 typeName rt (kindOf ctx.renv rt != Kind.interface)
              possibleTypes [] h2S hassertS hfuelAL
            cases hal : makeAssertsLoop ctx n st2 typeName rt (kindOf ctx.renv rt != Kind.interface)
                possibleTypes [] with
            | error e =>
              simp only [hal]
              exact NoFuelErr_error S _ _ (aerr e hal)
            | ok pr2 =>
              obtain ⟨tas, st3⟩ := pr2
              simp only [hal]
              obtain ⟨h23, h3S⟩ := aok tas st3 hal
              exact NoFuelErr_ok S _ _ _ (Finset.Subset.trans h12 h23) h3S
          · rw [if_neg hcond]
            exact NoFuelErr_ok S _ _ _ h12 h2S
    · -- makeFieldsLoop
      intro st typeName resolverType rt fieldsCount mhr fields acc hkeys hfS hfuel
      cases fields with
      | nil =>
        exact NoFuelErr_ok S st acc st (Finset.Subset.refl _) hkeys
      | cons f rest =>
        simp only [List.length_cons] at hfuel
        simp only [makeFieldsLoop]
        split
        · exact NoFuelErr_error S _ _ (by simp)
        · have hpair0 := hfS f (List.mem_cons_self f rest)
          rw [← fieldOutType_eq ctx typeName resolverType rt f] at hpair0
          have hfuelFE : pairGap S st * B + 2 ≤ n := by
            generalize pairGap S st * B = g at hfuel ⊢
            omega
          split
          · rename_i hfi
            rw [if_pos hfi] at hpair0
            split
            · exact NoFuelErr_error S _ _ (by simp)
            · split
              · exact NoFuelErr_error S _ _ (by simp)
              · rename_i fe st2 heq
                obtain ⟨h12, h2S⟩ :=
                  (ihFE st typeName f _ _ _ _ mhr hkeys hpair0 hfuelFE).2 fe st2 heq
                have hgap2 : pairGap S st2 ≤ pairGap S st := pairGap_le_of_subset S _ _ h12
                have hfuelFL2 : pairGap S st2 * B + rest.length + 3 ≤ n := by
                  have hmul := Nat.mul_le_mul_right B hgap2
                  generalize pairGap S st2 * B = g2 at hmul ⊢
                  generalize pairGap S st * B = g at hmul hfuel
                  omega
                obtain ⟨rerr, rok⟩ := ihFL st2 typeName resolverType rt fieldsCount mhr rest
                  (acc ++ [(f.name, fe)]) h2S
                  (fun g hg => hfS g (List.mem_cons_of_mem f hg)) hfuelFL2
                cases hrec : makeFieldsLoop ctx n st2 typeName resolverType rt fieldsCount mhr rest
                    (acc ++ [(f.name, fe)]) with
                | error e =>
                  exact NoFuelErr_error S _ _ (rerr e hrec)
                | ok pr =>
                  obtain ⟨a2, st3⟩ := pr
                  obtain ⟨h23, h3S⟩ := rok a2 st3 hrec
                  exact NoFuelErr_ok S _ _ _ (Finset.Subset.trans h12 h23) h3S
          · rename_i hfi
            rw [if_neg hfi] at hpair0
            split
            · exact NoFuelErr_error S _ _ (by simp)
            · split
              · exact NoFuelErr_error S _ _ (by simp)
              · rename_i fe st2 heq
                obtain ⟨h12, h2S⟩ :=
                  (ihFE st typeName f _ _ _ _ mhr hkeys hpair0 hfuelFE).2 fe st2 heq
                have hgap2 : pairGap S st2 ≤ pairGap S st := pairGap_le_of_subset S _ _ h12
                have hfuelFL2 : pairGap S st2 * B + rest.length + 3 ≤ n := by
                  have hmul := Nat.mul_le_mul_right B hgap2
                  generalize pairGap S st2 * B = g2 at hmul ⊢
                  generalize pairGap S st * B = g at hmul hfuel
                  omega
                obtain ⟨rerr, rok⟩ := ihFL st2 typeName resolverType rt fieldsCount mhr rest
                  (acc ++ [(f.name, fe)]) h2S
                  (fun g hg => hfS g (List.mem_cons_of_mem f hg)) hfuelFL2
                cases hrec : makeFieldsLoop ctx n st2 typeName resolverType rt fieldsCount mhr rest
                    (acc ++ [(f.name, fe)]) with
                | error e =>
                  exact NoFuelErr_error S _ _ (rerr e hrec)
                | ok pr =>
                  obtain ⟨a2, st3⟩ := pr
                  obtain ⟨h23, h3S⟩ := rok a2 st3 hrec
                  exact NoFuelErr_ok S _ _ _ (Finset.Subset.trans h12 h23) h3S
    · -- makeFieldExec
      intro st typeName f m sf methodIndex fieldIndex mhr hkeys hpair hfuel
      have hpairX : (f.type, fieldOut ctx typeName m sf methodIndex) ∈ S := hpair
      have hfuelA : pairGap S st * B + 1 ≤ n := by
        generalize pairGap S st * B = g at hfuel ⊢
        omega
      rw [makeFieldExec_succ]
      cases hv : fieldValidated f m methodIndex with
      | error e =>
        exact NoFuelErr_error S _ _ (fieldValidated_not_outOfFuel f m methodIndex e hv)
      | ok tr =>
        obtain ⟨hc, he, ap⟩ := tr
        cases hd : makeDirectivePackers ctx f.name f.directives [] with
        | error e =>
          exact NoFuelErr_error S _ _ (makeDirectivePackers_not_outOfFuel ctx f.name f.directives [] e hd)
        | ok dps =>
          obtain ⟨aerr, aok⟩ := ihA st f.type (fieldOut ctx typeName m sf methodIndex) hkeys hpairX hfuelA
          cases ha : assignExec ctx n st f.type (fieldOut ctx typeName m sf methodIndex) with
          | error e =>
            exact NoFuelErr_error S _ _ (aerr e ha)
          | ok pr =>
            obtain ⟨slot, st2⟩ := pr
            obtain ⟨h12, h2S⟩ := aok slot st2 ha
            exact NoFuelErr_ok S _ _ _ h12 h2S
    · -- makeAssertsLoop
      intro st typeName resolverType mhr impls acc hkeys haS hfuel
      cases impls with
      | nil =>
        exact NoFuelErr_ok S st acc st (Finset.Subset.refl _) hkeys
      | cons implName rest =>
        simp only [List.length_cons] at hfuel
        cases mhr <;>
        · simp only [makeAssertsLoop, Bool.false_eq_true, if_false, if_true, eq_self_iff_true]
          split
          · exact NoFuelErr_error S _ _ (by simp)
          · rename_i hmi
            split
            · exact NoFuelErr_error S _ _ (by simp)
            · rename_i mm hma
              split
              · exact NoFuelErr_error S _ _ (by simp)
              · split
                · exact NoFuelErr_error S _ _ (by simp)
                · have hne : ((findMethod ctx.renv resolverType ("To" ++ implName)) != -1) = true := by
                    simp only [Bool.not_eq_true] at hmi
                    simp [bne, hmi]
                  have hq : (SType.namedRef implName, mm.outTypes.headD (RType.named "")) ∈ S := by
                    apply haS implName (List.mem_cons_self implName rest)
                    simp only [assertPairOf]
                    rw [if_pos hne, hma]
                    rfl
                  have hfuelA : pairGap S st * B + 1 ≤ n := by
                    generalize pairGap S st * B = g at hfuel ⊢
                    omega
                  obtain ⟨aerr, aok⟩ := ihA st (SType.namedRef implName)
                    (mm.outTypes.headD (RType.named "")) hkeys hq hfuelA
                  split
                  · rename_i e ha
                    exact NoFuelErr_error S _ _ (aerr e ha)
                  · rename_i slot st2 ha
                    obtain ⟨h12, h2S⟩ := aok slot st2 ha
                    have hgap2 := pairGap_le_of_subset S _ _ h12
                    have hfuelAL2 : pairGap S st2 * B + rest.length + 2 ≤ n := by
                      have hmul := Nat.mul_le_mul_right B hgap2
                      generalize pairGap S st2 * B = g2 at hmul ⊢
                      generalize pairGap S st * B = g at hmul hfuel
                      omega
                    exact NoFuelErr_mono S st st2 _ h12
                      (ihAL st2 typeName resolverType _ rest _ h2S
                        (fun i hi => haS i (List.mem_cons_of_mem implName hi)) hfuelAL2)

/-- A cache hit in `assignExec`: the pending slot is handed out and the hit
entry gains it as a target; nothing else happens. -/
theorem assignExec_cache_hit (ctx : Ctx) (fuel : Nat) (st : BState) (t : SType) (rt : RType)
    (entry : ResMapEntry) (h : st.lookupPair (t, rt) = some entry) :
    assignExec ctx (fuel + 1) st t rt =
      .ok (st.nextSlot, BState.addTarget { st with nextSlot := st.nextSlot + 1 } (t, rt) st.nextSlot) := by
  simp only [assignExec, BState.allocSlot]
  have h' : BState.lookupPair { st with nextSlot := st.nextSlot + 1 } (t, rt) = some entry := h
  rw [h']

theorem find?_addTarget (l : List (TypePair × ResMapEntry)) (k : TypePair) (slot : Nat) :
    ((l.map (fun p => if p.1 == k then (p.1, { p.2 with targets := p.2.targets ++ [slot] }) else p)).find?
        (fun p => p.1 == k))
      = (l.find? (fun p => p.1 == k)).map
          (fun p => (p.1, { p.2 with targets := p.2.targets ++ [slot] })) := by
  induction l with
  | nil => rfl
  | cons p rest ih =>
    obtain ⟨k1, e1⟩ := p
    by_cases hp : (k1 == k) = true
    · simp only [List.map_cons, if_pos hp, List.find?, Option.map_some']
      rw [hp]
      rfl
    · have hp' : (k1 == k) = false := by simpa using hp
      simp only [List.map_cons, if_neg hp, List.find?]
      rw [hp']
      exact ih

/-- The entry hit by `assignExec` only gains the pending target. -/
theorem lookupPair_addTarget (st : BState) (k : TypePair) (slot : Nat) (entry : ResMapEntry)
    (h : st.lookupPair k = some entry) :
    (BState.addTarget st k slot).lookupPair k =
      some { entry with targets := entry.targets ++ [slot] } := by
  simp only [BState.lookupPair, BState.addTarget] at h ⊢
  rw [find?_addTarget]
  cases hf : st.resMap.find? (fun p => p.1 == k) with
  | none => rw [hf] at h; cases h
  | some q =>
    rw [hf] at h
    simp only [Option.map_some'] at h ⊢
    injection h with h
    rw [h]

theorem finishAssignments_eq (st : BState) :
    finishAssignments st
      = (st.resMap.map (fun p => p.2.targets.map (fun s => (s, p.2.exec)))).flatten := by
  suffices h : ∀ (l : List (TypePair × ResMapEntry)) (acc : List (Nat × Option Nat)),
      l.foldl (fun acc p => acc ++ p.2.targets.map (fun s => (s, p.2.exec))) acc
        = acc ++ (l.map (fun p => p.2.targets.map (fun s => (s, p.2.exec)))).flatten by
    simpa [finishAssignments] using h st.resMap []
  intro l
  induction l with
  | nil => intro acc; simp
  | cons p rest ih => intro acc; simp [ih]

/-- `finish` patches every pending target of an entry with that entry's built
node: a slot targeted by the entry — and by no later entry — reads back the
entry's node after patching. -/
theorem slotVal_finish (st : BState) (pre post : List (TypePair × ResMapEntry))
    (k : TypePair) (e : ResMapEntry) (s : Nat)
    (hsplit : st.resMap = pre ++ (k, e) :: post)
    (hs : s ∈ e.targets)
    (hnot : ∀ p ∈ post, s ∉ p.2.targets) :
    slotVal (finishAssignments st) s = e.exec := by
  rw [slotVal, finishAssignments_eq, hsplit]
  rw [List.map_append, List.map_cons, List.flatten_append, List.flatten_cons]
  rw [List.reverse_append, List.reverse_append]
  rw [List.find?_append, List.find?_append]
  have hC : (((post.map (fun p => p.2.targets.map (fun s => (s, p.2.exec)))).flatten).reverse.find?
      (fun p => p.1 == s)) = none := by
    apply List.find?_eq_none.mpr
    intro x hx
    rw [List.mem_reverse, List.mem_flatten] at hx
    obtain ⟨lx, hlx, hxl⟩ := hx
    rw [List.mem_map] at hlx
    obtain ⟨p, hp, rfl⟩ := hlx
    rw [List.mem_map] at hxl
    obtain ⟨s0, hs0, rfl⟩ := hxl
    simp only [beq_iff_eq]
    intro hcontra
    exact hnot p hp (hcontra ▸ hs0)
  rw [hC]
  have hM : ∃ y, ((e.targets.map (fun s => (s, e.exec))).reverse.find? (fun p => p.1 == s)) = some y := by
    rw [← Option.isSome_iff_exists]
    apply List.find?_isSome.mpr
    refine ⟨(s, e.exec), ?_, by simp⟩
    rw [List.mem_reverse, List.mem_map]
    exact ⟨s, hs, rfl⟩
  obtain ⟨y, hy⟩ := hM
  have hym : y ∈ (e.targets.map (fun s => (s, e.exec))).reverse := List.mem_of_find?_eq_some hy
  rw [List.mem_reverse, List.mem_map] at hym
  obtain ⟨s0, hs0, rfl⟩ := hym
  rw [hy]
  rfl

/-- C1: for every schema/resolver type graph whose reachable
(schema-type, resolver-type) pairs form a finite set closed under the
builder's one-step children — in particular any self-referential object
type bound against a matching self-referential member — (1) binding
terminates: with fuel proportional to the number of yet-unvisited pairs the
builder never reaches the fuel-exhaustion artifact; (2) the second time a
pair is encountered by `assignExec` construction is not re-entered: the
call returns at once with the pending slot, no node is built, and the
cached entry only gains that slot as a pending target; and (3) after
`finish`'s patching pass every pending target of one entry reads back that
entry's built node, so the field's child slot and the ancestor's slot for
the same pair are reference-identical (structural sharing, not
re-derivation). -/
theorem C1_self_referential_termination_and_sharing
    (ctx : Ctx) (S : Finset TypePair) (B : Nat)
    (hclosed : ClosedPairs ctx S) (hB : ∀ p ∈ S, pairWidth ctx p + 5 ≤ B) :
    (∀ fuel st t rt, keysOf st ⊆ S → (t, rt) ∈ S → pairGap S st * B + 1 ≤ fuel →
       assignExec ctx fuel st t rt ≠ Except.error Err.outOfFuel) ∧
    (∀ fuel st t rt entry, st.lookupPair (t, rt) = some entry →
       assignExec ctx (fuel + 1) st t rt =
         .ok (st.nextSlot, BState.addTarget { st with nextSlot := st.nextSlot + 1 } (t, rt) st.nextSlot) ∧
       (BState.addTarget { st with nextSlot := st.nextSlot + 1 } (t, rt) st.nextSlot).nodes = st.nodes ∧
       (BState.addTarget { st with nextSlot := st.nextSlot + 1 } (t, rt) st.nextSlot).lookupPair (t, rt) =
         some { entry with targets := entry.targets ++ [st.nextSlot] }) ∧
    (∀ st pre post k e s1 s2, st.resMap = pre ++ (k, e) :: post →
       s1 ∈ e.targets → s2 ∈ e.targets →
       (∀ p ∈ post, s1 ∉ p.2.targets) → (∀ p ∈ post, s2 ∉ p.2.targets) →
       slotVal (finishAssignments st) s1 = e.exec ∧
       slotVal (finishAssignments st) s2 = e.exec ∧
       slotVal (finishAssignments st) s1 = slotVal (finishAssignments st) s2) := by
  refine ⟨?_, ?_, ?_⟩
  · intro fuel st t rt hkeys hmem hfuel hcontra
    exact ((builder_fuel ctx S B hclosed hB fuel).1 st t rt hkeys hmem hfuel).1
      Err.outOfFuel hcontra rfl
  · intro fuel st t rt entry h
    exact ⟨assignExec_cache_hit ctx fuel st t rt entry h, rfl,
      lookupPair_addTarget { st with nextSlot := st.nextSlot + 1 } (t, rt) st.nextSlot entry h⟩
  · intro st pre post k e s1 s2 hsplit hs1 hs2 hn1 hn2
    have h1 := slotVal_finish st pre post k e s1 hsplit hs1 hn1
    have h2 := slotVal_finish st pre post k e s2 hsplit hs2 hn2
    exact ⟨h1, h2, h1.trans h2.symm⟩

/-- A schema with a self-referential object type: `type T { self: T }`,
rooted at `query`. -/
def c1schema : GSchema :=
  { types := [("T", .object [{ name := "self", type := .namedRef "T" }])],
    rootOperationTypes := [("query", "T")] }

/-- A host environment with the matching self-referential member:
`struct R` with pointer method `Self() *R`. -/
def c1renv : REnv :=
  [("R", { kind := .struct,
           ptrMethods := [{ name := "Self", inTypes := [], outTypes := [.ptr (.named "R")] }] })]

def c1ctx : Ctx := { schema := c1schema, renv := c1renv }

/-- The single reachable pair of the self-referential example. -/
def c1S : Finset TypePair := {(SType.namedRef "T", RType.ptr (RType.named "R"))}

/-- The builder state at the second encounter of the pair: the memo entry was
inserted before recursing, no node is built yet. -/
def c1stHit : BState :=
  { resMap := [((SType.namedRef "T", RType.ptr (RType.named "R")), {})],
    nodes := #[], nextSlot := 1 }

/-- The final builder state of the run on the self-referential example. -/
def c1stF : BState :=
  match assignExec c1ctx 7 {} (SType.namedRef "T") (RType.ptr (RType.named "R")) with
  | .ok p => p.2
  | .error _ => {}

theorem C1_witness :
    (assignExec c1ctx 7 {} (SType.namedRef "T") (RType.ptr (RType.named "R"))
        ≠ Except.error Err.outOfFuel) ∧
    (assignExec c1ctx 5 c1stHit (SType.namedRef "T") (RType.ptr (RType.named "R")) =
        .ok (1, BState.addTarget { c1stHit with nextSlot := 2 }
          (SType.namedRef "T", RType.ptr (RType.named "R")) 1)) ∧
    ((BState.addTarget { c1stHit with nextSlot := 2 }
        (SType.namedRef "T", RType.ptr (RType.named "R")) 1).nodes = c1stHit.nodes) ∧
    (slotVal (finishAssignments c1stF) 1 = some 0) ∧
    (slotVal (finishAssignments c1stF) 0 = some 0) ∧
    (slotVal (finishAssignments c1stF) 1 = slotVal (finishAssignments c1stF) 0) := by
  obtain ⟨h1, h2, h3⟩ :=
    C1_self_referential_termination_and_sharing c1ctx c1S 6 (by unfold ClosedPairs; decide) (by decide)
  have ha := h1 7 {} (SType.namedRef "T") (RType.ptr (RType.named "R"))
    (by decide) (by decide) (by decide)
  have hb := h2 4 c1stHit (SType.namedRef "T") (RType.ptr (RType.named "R")) {} (by rfl)
  have hc := h3 c1stF [] [] (SType.namedRef "T", RType.ptr (RType.named "R"))
    { exec := some 0, targets := [1, 0] } 1 0 (by rfl) (by decide) (by decide)
    (by simp) (by simp)
  exact ⟨ha, hb.1, hb.2.1, hc.1, hc.2.1, hc.2.2⟩

end GraphQLGo
